import Mathlib

/-!
Shallow embedding of the org-web repository (src/utils.py, src/main.py,
src/xmpp_bot.py).  Documents are lists of characters; lines are lists of
characters containing no newline.  Python regular expressions that the code
uses are unfolded into their matching semantics on such lists.
-/

namespace OrgWeb

abbrev Line := List Char

/-- Python's `\s` class (and `str.strip`) on the ASCII range. -/
def isWS (c : Char) : Bool :=
  c = ' ' || c = '\t' || c = '\n' || c = '\r' || c = '\x0b' || c = '\x0c'

/-- `str.strip()` : drop whitespace from both ends. -/
def trim (l : Line) : Line :=
  (l.dropWhile isWS).reverse.dropWhile isWS |>.reverse

/-- `content.split("\n")` : always returns one piece more than the number of
newlines. -/
def splitLines : List Char → List Line
  | [] => [[]]
  | c :: cs =>
    if c = '\n' then [] :: splitLines cs
    else
      match splitLines cs with
      | [] => [[c]]
      | l :: ls => (c :: l) :: ls

/-- `"\n".join(lines)`. -/
def joinLines : List Line → List Char
  | [] => []
  | [l] => l
  | l :: ls => l ++ '\n' :: joinLines ls

/-- Length of the maximal run of `*` at the start of a line. -/
def starCount : Line → Nat
  | [] => 0
  | c :: rest => if c = '*' then starCount rest + 1 else 0

/-- Matching semantics of `re.match(r"^(\*+)\s+(.+)$", line)`: the maximal
leading star run (at least one star) must be followed by a whitespace
character and at least one further character.  Returns the star count
together with `group(2).strip()`, which equals trimming everything after the
stars. -/
def headingMatch (l : Line) : Option (Nat × Line) :=
  let p := starCount l
  let rest := l.drop p
  match rest with
  | c :: _ :: _ => if 1 ≤ p ∧ isWS c then some (p, trim rest) else none
  | _ => none

/-- The line is a heading at exactly `level` stars whose trimmed text is
`target` (the match condition of `find_heading_in_content`). -/
def isTarget (target : Line) (level : Nat) (l : Line) : Bool :=
  match headingMatch l with
  | some (p, t) => p = level && t = target
  | none => false

/-- The line is a heading whose star count is at most `level` (the condition
ending a heading's body). -/
def isBoundary (level : Nat) (l : Line) : Bool :=
  match headingMatch l with
  | some (p, _) => p ≤ level
  | none => false

/-- Offset of the first line that is a heading of level ≤ `level`; the length
of the list when none exists.  (The inner `for j in range(i+1, len(lines))`
loop of `find_heading_in_content`.) -/
def nextBoundary (level : Nat) : List Line → Nat
  | [] => 0
  | l :: ls => if isBoundary level l then 0 else nextBoundary level ls + 1

/-- The scanning loop of `find_heading_in_content` over a list of lines. -/
def findHeadingLines (target : Line) (level : Nat) : List Line → Option (Nat × Nat)
  | [] => none
  | l :: ls =>
    if isTarget target level l then some (0, nextBoundary level ls + 1)
    else (findHeadingLines target level ls).map (fun p => (p.1 + 1, p.2 + 1))

/-- `find_heading_in_content(content, target_heading, level)`. -/
def find_heading_in_content (content : List Char) (target : Line) (level : Nat) :
    Option (Nat × Nat) :=
  findHeadingLines target level (splitLines content)

/-- `get_heading_content(content, heading, level)`. -/
def get_heading_content (content : List Char) (heading : Line) (level : Nat) :
    List Char :=
  match find_heading_in_content content heading level with
  | none => []
  | some (startLine, endLine) =>
    let lines := splitLines content
    if startLine + 1 < endLine then
      let contentLines := (lines.drop (startLine + 1)).take (endLine - (startLine + 1))
      let contentLines := contentLines.dropWhile (fun l => trim l = [])
      let contentLines := contentLines.reverse.dropWhile (fun l => trim l = []) |>.reverse
      joinLines contentLines
    else []

/-- `update_heading_in_content(content, old_heading, new_heading, new_content, level)`. -/
def update_heading_in_content (content : List Char) (oldHeading newHeading : Line)
    (newContent : List Char) (level : Nat) : List Char :=
  match find_heading_in_content content oldHeading level with
  | none => content
  | some (startLine, endLine) =>
    let lines := splitLines content
    let newHeadingLine := List.replicate level '*' ++ ' ' :: newHeading
    let newLines := lines.take startLine ++ [newHeadingLine]
    let newLines :=
      if trim newContent ≠ [] then newLines ++ [] :: splitLines newContent
      else newLines
    joinLines (newLines ++ lines.drop endLine)

/-- `add_heading_to_content(content, parent_heading, parent_level, new_heading,
new_content, new_level)` (src/main.py); an empty `parent_heading` models the
falsy/absent parent. -/
def add_heading_to_content (content : List Char) (parentHeading : Line)
    (parentLevel : Nat) (newHeading : Line) (newContent : List Char)
    (newLevel : Nat) : List Char :=
  let lines := splitLines content
  let insertPos? : Option Nat :=
    if parentHeading ≠ [] then
      match find_heading_in_content content parentHeading parentLevel with
      | none => none
      | some (_, endLine) => some endLine
    else some lines.length
  match insertPos? with
  | none => content
  | some insertPos =>
    let newHeadingLine := List.replicate newLevel '*' ++ ' ' :: newHeading
    let newLines := lines.take insertPos
    let newLines :=
      if h : newLines ≠ [] then
        if trim (newLines.getLast h) ≠ [] then newLines ++ [[]] else newLines
      else newLines
    let newLines := newLines ++ [newHeadingLine]
    let newLines :=
      if trim newContent ≠ [] then newLines ++ [] :: splitLines newContent
      else newLines
    joinLines (newLines ++ lines.drop insertPos)

/-- `extract_title_from_content(content)`: first line starting with the
literal `#+title:` or `#+TITLE:`; result is the trimmed text after the first
colon.  `line.split(":", 1)[1]` is everything after the first colon. -/
def extract_title_from_content (content : List Char) : Option Line :=
  (splitLines content).findSome? fun line =>
    if ("#+title:").toList.isPrefixOf line || ("#+TITLE:").toList.isPrefixOf line then
      some (trim (line.dropWhile (fun c => c ≠ ':')).tail)
    else none

/-- The `file_title` computation of the agenda parsers: the extracted title,
falling back to the file stem when the title is absent or falsy (empty). -/
def fileTitle (content : List Char) (stem : Line) : Line :=
  match extract_title_from_content content with
  | some t => if t ≠ [] then t else stem
  | none => stem

/-- A proleptic-Gregorian calendar date as `datetime.date` holds it. -/
structure Date where
  year : Nat
  month : Nat
  day : Nat
deriving DecidableEq, Repr

def isLeapYear (y : Nat) : Bool :=
  y % 4 = 0 && (y % 100 ≠ 0 || y % 400 = 0)

def daysInMonth (y m : Nat) : Nat :=
  if m = 2 then (if isLeapYear y then 29 else 28)
  else if m = 4 ∨ m = 6 ∨ m = 9 ∨ m = 11 then 30
  else 31

def isDigit (c : Char) : Bool := '0' ≤ c ∧ c ≤ '9'

def digitsVal (l : List Char) : Nat :=
  l.foldl (fun acc c => acc * 10 + (c.toNat - ('0').toNat)) 0

/-- A month/day field of CPython's `strptime`: one or two digits with a value
in the given range (`%m` is `1[0-2]|0[1-9]|[1-9]`, `%d` is
`3[01]|[12]\d|0[1-9]|[1-9]`). -/
def validField (lo hi : Nat) (s : List Char) : Bool :=
  s.all isDigit && (s.length = 1 || s.length = 2) && lo ≤ digitsVal s && digitsVal s ≤ hi

/-- `datetime.strptime(s, "%Y-%m-%d").date()` with `ValueError` mapped to
`none`: exactly four year digits, month and day fields as above, nothing left
over, and the day must exist in the month (`datetime` range checks). -/
def parseYMD (s : List Char) : Option Date :=
  match s with
  | y1 :: y2 :: y3 :: y4 :: '-' :: rest =>
    if isDigit y1 && isDigit y2 && isDigit y3 && isDigit y4 then
      let ms := rest.takeWhile (fun c => c ≠ '-')
      match rest.dropWhile (fun c => c ≠ '-') with
      | '-' :: ds =>
        if validField 1 12 ms && validField 1 31 ds then
          let y := digitsVal [y1, y2, y3, y4]
          let m := digitsVal ms
          let d := digitsVal ds
          if 1 ≤ y ∧ d ≤ daysInMonth y m then some ⟨y, m, d⟩ else none
        else none
      | _ => none
    else none
  | _ => none

/-- One anchored attempt of `re.match` for `KEY\s*<([^>]+)>` at the start of
`l`: the literal key, then greedily skipped whitespace, then `<`, then at
least one non-`>` character up to a closing `>`. -/
def matchTimestampAt (key : List Char) (l : List Char) : Option (List Char) :=
  if key.isPrefixOf l then
    match (l.drop key.length).dropWhile isWS with
    | '<' :: rest =>
      let v := rest.takeWhile (fun c => c ≠ '>')
      if v ≠ [] ∧ rest.dropWhile (fun c => c ≠ '>') ≠ [] then some v else none
    | _ => none
  else none

/-- `re.search(KEY + r"\s*<([^>]+)>", content)`: the leftmost position where
the anchored attempt succeeds. -/
def searchTimestamp (key : List Char) : List Char → Option (List Char)
  | [] => none
  | c :: rest =>
    match matchTimestampAt key (c :: rest) with
    | some v => some v
    | none => searchTimestamp key rest

/-- Python `str.split()` with no separator: maximal non-whitespace runs. -/
def splitWSAux (acc : List Char) : List Char → List (List Char)
  | [] => if acc = [] then [] else [acc.reverse]
  | c :: rest =>
    if isWS c then
      if acc = [] then splitWSAux [] rest else acc.reverse :: splitWSAux [] rest
    else splitWSAux (c :: acc) rest

def splitWS (l : List Char) : List (List Char) := splitWSAux [] l

def schedKey : List Char := ("SCHEDULED:").toList
def deadKey : List Char := ("DEADLINE:").toList

/-- The body of each `try` block of `parse_timestamps_in_content`: regex
search, `date_str.split()[0]` (an `IndexError` on an all-whitespace value is
swallowed by the bare `except`), then `strptime` (a `ValueError` likewise). -/
def extractStamp (key : List Char) (content : List Char) : Option Date :=
  (searchTimestamp key content).bind fun v => ((splitWS v).head?).bind parseYMD

/-- `parse_timestamps_in_content(heading_text, content_after_heading)`
(scheduled, deadline). -/
def parse_timestamps_in_content (contentAfterHeading : List Char) :
    Option Date × Option Date :=
  (extractStamp schedKey contentAfterHeading, extractStamp deadKey contentAfterHeading)

/-- Worded as the spec describes it: the first whitespace-delimited token of
the bracketed value, when one exists. -/
def firstTokenSpec (v : List Char) : Option (List Char) :=
  let t := (v.dropWhile isWS).takeWhile fun c => !isWS c
  if t = [] then none else some t

/-- The claim's description of the extraction: parse the **first ten
characters** of the bracketed value. -/
def extractStampFirst10 (key : List Char) (content : List Char) : Option Date :=
  (searchTimestamp key content).bind fun v => parseYMD (v.take 10)

/-! ### The per-file heading → body index (`content_sections`) -/

/-- Insertion-ordered dictionary assignment `d[key] = val`. -/
def sectionsInsert (key : Line) (val : List Char) :
    List (Line × List Char) → List (Line × List Char)
  | [] => [(key, val)]
  | (k, v) :: rest =>
    if k = key then (k, val) :: rest else (k, v) :: sectionsInsert key val rest

def sectionsGet (key : Line) : List (Line × List Char) → Option (List Char)
  | [] => none
  | (k, v) :: rest => if k = key then some v else sectionsGet key rest

/-- `if current_heading: content_sections[current_heading] = "\n".join(acc)` —
a falsy (absent or empty) current heading stores nothing. -/
def storeSection (cur : Option Line) (acc : List Line)
    (d : List (Line × List Char)) : List (Line × List Char) :=
  match cur with
  | some k => if k ≠ [] then sectionsInsert k (joinLines acc) d else d
  | none => d

/-- The section-building loop of the agenda parsers: every heading line (any
level) starts a new key (its trimmed text, status keyword included); every
other line is appended to the current section. -/
def buildSectionsAux (cur : Option Line) (acc : List Line)
    (d : List (Line × List Char)) : List Line → List (Line × List Char)
  | [] => storeSection cur acc d
  | l :: ls =>
    match headingMatch l with
    | some (_, t) => buildSectionsAux (some t) [] (storeSection cur acc d) ls
    | none => buildSectionsAux cur (acc ++ [l]) d ls

def buildSections (lines : List Line) : List (Line × List Char) :=
  buildSectionsAux none [] [] lines

/-- The lines attributed to a section: everything up to the next heading. -/
def sectionBody (ls : List Line) : List Char :=
  joinLines (ls.takeWhile fun l => (headingMatch l).isNone)

/-- Specification-side view of the index: the body following the **last**
heading whose trimmed text equals `key`. -/
def lastSection (key : Line) : List Line → Option (List Char)
  | [] => none
  | l :: ls =>
    match lastSection key ls with
    | some r => some r
    | none =>
      match headingMatch l with
      | some (_, t) => if t = key then some (sectionBody ls) else none
      | none => none

/-! ### The agenda extractors (`parse_org_agenda_items` and the task-only
variant).  The `orgparse` node tree is external library output, so a file
carries its node forest as data; everything the two Python functions compute
from it is embedded. -/

mutual
inductive ONode where
  | mk (heading : List Char) (todo : Option (List Char)) (tags : List (List Char))
      (priority : Option (List Char)) (children : OForest)
inductive OForest where
  | nil
  | cons (n : ONode) (ns : OForest)
end

structure OrgFile where
  name : Line
  content : List Char
  forest : OForest

structure Item where
  title : Line
  fileName : Line
  fileTitle : Line
  todoKeyword : Option (List Char)
  tags : List (List Char)
  priority : Option (List Char)
  scheduled : Option Date
  deadline : Option Date
  isTaskFile : Bool
deriving DecidableEq, Repr

structure AgendaState where
  processed : List (List Char)
  schedulesToday : List Item
  deadlinesToday : List Item
  todosACTIVE : List Item
  todosNEXT : List Item
  todosTODO : List Item
  todosWAIT : List Item
deriving DecidableEq, Repr

def initAgenda : AgendaState := ⟨[], [], [], [], [], [], []⟩

def todoWords : List (List Char) :=
  [("ACTIVE").toList, ("NEXT").toList, ("TODO").toList, ("WAIT").toList]

/-- `re.match(r"^(ACTIVE|NEXT|TODO|WAIT|DONE)\s+", heading)`: the keyword must
be followed by at least one whitespace character; the rewritten heading is the
rest with the matched whitespace removed and then stripped. -/
def todoKeywordMatch (h : List Char) : Option (List Char × List Char) :=
  (([("ACTIVE").toList, ("NEXT").toList, ("TODO").toList, ("WAIT").toList,
      ("DONE").toList].find? fun kw =>
    kw.isPrefixOf h &&
      match h.drop kw.length with
      | c :: _ => isWS c
      | [] => false).map fun kw => (kw, trim ((h.drop kw.length).dropWhile isWS)))

/-- Python's substring test `p in l`. -/
def isSubstring (p : List Char) : List Char → Bool
  | [] => p.isEmpty
  | c :: rest => p.isPrefixOf (c :: rest) || isSubstring p rest

/-- `"__task" in name or "_task" in name` — the task-file test of
`parse_org_agenda_items`. -/
def fullTaskTest (name : List Char) : Bool :=
  isSubstring ("__task").toList name || isSubstring ("_task").toList name

/-- Python `name.split("__")`. -/
def splitDunderAux (acc : List Char) : List Char → List (List Char)
  | '_' :: '_' :: rest => acc.reverse :: splitDunderAux [] rest
  | c :: rest => splitDunderAux (c :: acc) rest
  | [] => [acc.reverse]

/-- Python `part.replace(".org", "")`: remove every occurrence, scanning left
to right. -/
def removeOrgExt : List Char → List Char
  | '.' :: 'o' :: 'r' :: 'g' :: rest => removeOrgExt rest
  | c :: rest => c :: removeOrgExt rest
  | [] => []

/-- `has_task_filetag(filename)` of `parse_org_agenda_items_task_only`:
denote filetags are the `__`-separated segments after the first; each is
cleaned of `.org`, lowercased and split at `_`; the file qualifies when some
segment has a `task` component. -/
def has_task_filetag (filename : List Char) : Bool :=
  ((splitDunderAux [] filename).drop 1).any fun part =>
    ((((removeOrgExt part).map Char.toLower).splitOn '_').contains ("task").toList)

/-- `agenda_items["todos"][todo_keyword].append(item)`. -/
def addTodoItem (k : List Char) (item : Item) (st : AgendaState) : AgendaState :=
  if k = ("ACTIVE").toList then { st with todosACTIVE := st.todosACTIVE ++ [item] }
  else if k = ("NEXT").toList then { st with todosNEXT := st.todosNEXT ++ [item] }
  else if k = ("TODO").toList then { st with todosTODO := st.todosTODO ++ [item] }
  else if k = ("WAIT").toList then { st with todosWAIT := st.todosWAIT ++ [item] }
  else st

structure FileCtx where
  name : Line
  ftitle : Line
  isTaskFile : Bool
  sections : List (Line × List Char)

/-- `if not todo_keyword: ...` — the keyword/heading rewrite at the top of
`walk_nodes` (shared verbatim by both variants). -/
def nodeKeywordHeading (td : Option (List Char)) (h : List Char) :
    Option (List Char) × List Char :=
  if td = none ∨ td = some [] then
    match todoKeywordMatch h with
    | some (k, rest) => (some k, rest)
    | none => (td, h)
  else (td, h)

/-- `content_sections.get(original_heading, content_sections.get(node.heading, ""))`. -/
def headingContentLookup (sections : List (Line × List Char)) (orig h : Line) :
    List Char :=
  match sectionsGet orig sections with
  | some c => c
  | none => (sectionsGet h sections).getD []

/-- The `scheduled == today` block of `walk_nodes` (both variants). -/
def schedStep (today : Date) (name orig : Line) (item : Item)
    (sched : Option Date) (st : AgendaState) : AgendaState :=
  if sched = some today then
    let sid := ("schedule:").toList ++ name ++ ':' :: orig
    if sid ∈ st.processed then st
    else { st with processed := sid :: st.processed,
                   schedulesToday := st.schedulesToday ++ [item] }
  else st

/-- The `deadline == today` block of `walk_nodes` (both variants). -/
def deadStep (today : Date) (name orig : Line) (item : Item)
    (dl : Option Date) (st : AgendaState) : AgendaState :=
  if dl = some today then
    let did := ("deadline:").toList ++ name ++ ':' :: orig
    if did ∈ st.processed then st
    else { st with processed := did :: st.processed,
                   deadlinesToday := st.deadlinesToday ++ [item] }
  else st

/-- The TODO block of `walk_nodes` in `parse_org_agenda_items`. -/
def todoStepFull (name : Line) (kw : Option (List Char)) (orig : Line)
    (item : Item) (st : AgendaState) : AgendaState :=
  match kw with
  | some k =>
    if k ∈ todoWords then
      let tid := ("todo:").toList ++ name ++ ':' :: (k ++ ':' :: orig)
      if tid ∈ st.processed then st
      else addTodoItem k item { st with processed := tid :: st.processed }
    else st
  | none => st

/-- The TODO block of `walk_nodes` in `parse_org_agenda_items_task_only`: the
one place the two variants differ, `and is_task_file` added to the guard. -/
def todoStepTask (isTaskFile : Bool) (name : Line) (kw : Option (List Char))
    (orig : Line) (item : Item) (st : AgendaState) : AgendaState :=
  match kw with
  | some k =>
    if k ∈ todoWords ∧ isTaskFile then
      let tid := ("todo:").toList ++ name ++ ':' :: (k ++ ':' :: orig)
      if tid ∈ st.processed then st
      else addTodoItem k item { st with processed := tid :: st.processed }
    else st
  | none => st

/-- The body of `walk_nodes` in `parse_org_agenda_items` for one node (the
part guarded by `node.heading` being truthy). -/
def processNodeFull (ctx : FileCtx) (today : Date) (h : List Char)
    (todo : Option (List Char)) (tags : List (List Char))
    (prio : Option (List Char)) (st : AgendaState) : AgendaState :=
  if h = [] then st else
  let p := nodeKeywordHeading todo h
  let hc := headingContentLookup ctx.sections p.2 h
  let ts := parse_timestamps_in_content hc
  let item : Item :=
    { title := p.2, fileName := ctx.name, fileTitle := ctx.ftitle,
      todoKeyword := p.1, tags := tags, priority := prio, scheduled := ts.1,
      deadline := ts.2, isTaskFile := ctx.isTaskFile }
  todoStepFull ctx.name p.1 p.2 item
    (deadStep today ctx.name p.2 item ts.2
      (schedStep today ctx.name p.2 item ts.1 st))

mutual
/-- `walk_nodes` of `parse_org_agenda_items`: process the node, then recurse
into its children, threading the shared per-file state. -/
def walkNodeFull (ctx : FileCtx) (today : Date) :
    ONode → AgendaState → AgendaState
  | ONode.mk h td tg pr ch, st =>
    walkForestFull ctx today ch (processNodeFull ctx today h td tg pr st)
def walkForestFull (ctx : FileCtx) (today : Date) :
    OForest → AgendaState → AgendaState
  | OForest.nil, st => st
  | OForest.cons n ns, st =>
    walkForestFull ctx today ns (walkNodeFull ctx today n st)
end

/-- The per-file body of `parse_org_agenda_items` (fresh `processed_items`
per file). -/
def processFileFull (today : Date) (st : AgendaState) (f : OrgFile) : AgendaState :=
  let ctx : FileCtx :=
    { name := f.name,
      ftitle := fileTitle f.content (f.name.take (f.name.length - (".org").toList.length)),
      isTaskFile := fullTaskTest f.name,
      sections := buildSections (splitLines f.content) }
  walkForestFull ctx today f.forest { st with processed := [] }

/-- `parse_org_agenda_items` over the directory's files. -/
def parse_org_agenda_items (today : Date) (files : List OrgFile) : AgendaState :=
  files.foldl (processFileFull today) initAgenda

/-- The body of `walk_nodes` in `parse_org_agenda_items_task_only`; identical
to the full variant except that TODO-bucket inclusion also requires
`is_task_file`. -/
def processNodeTask (ctx : FileCtx) (today : Date) (h : List Char)
    (todo : Option (List Char)) (tags : List (List Char))
    (prio : Option (List Char)) (st : AgendaState) : AgendaState :=
  if h = [] then st else
  let p := nodeKeywordHeading todo h
  let hc := headingContentLookup ctx.sections p.2 h
  let ts := parse_timestamps_in_content hc
  let item : Item :=
    { title := p.2, fileName := ctx.name, fileTitle := ctx.ftitle,
      todoKeyword := p.1, tags := tags, priority := prio, scheduled := ts.1,
      deadline := ts.2, isTaskFile := ctx.isTaskFile }
  todoStepTask ctx.isTaskFile ctx.name p.1 p.2 item
    (deadStep today ctx.name p.2 item ts.2
      (schedStep today ctx.name p.2 item ts.1 st))

mutual
/-- `walk_nodes` of `parse_org_agenda_items_task_only`. -/
def walkNodeTask (ctx : FileCtx) (today : Date) :
    ONode → AgendaState → AgendaState
  | ONode.mk h td tg pr ch, st =>
    walkForestTask ctx today ch (processNodeTask ctx today h td tg pr st)
def walkForestTask (ctx : FileCtx) (today : Date) :
    OForest → AgendaState → AgendaState
  | OForest.nil, st => st
  | OForest.cons n ns, st =>
    walkForestTask ctx today ns (walkNodeTask ctx today n st)
end

/-- The per-file body of `parse_org_agenda_items_task_only`. -/
def processFileTask (today : Date) (st : AgendaState) (f : OrgFile) : AgendaState :=
  let ctx : FileCtx :=
    { name := f.name,
      ftitle := fileTitle f.content (f.name.take (f.name.length - (".org").toList.length)),
      isTaskFile := has_task_filetag f.name,
      sections := buildSections (splitLines f.content) }
  walkForestTask ctx today f.forest { st with processed := [] }

/-- `parse_org_agenda_items_task_only` over the directory's files. -/
def parse_org_agenda_items_task_only (today : Date) (files : List OrgFile) :
    AgendaState :=
  files.foldl (processFileTask today) initAgenda

/-! ### The XMPP bot's threshold watch (`src/xmpp_bot.py`) -/

/-- The `elif` ladder of `check_schedule_notifications`: which dedup-key
suffix (= bucket) a `total_minutes` value selects. -/
def scheduleBucket (m : ℚ) : Option (List Char) :=
  if 90 ≤ m ∧ m ≤ 120 then some ("_2h").toList
  else if 60 ≤ m ∧ m < 90 then some ("_90m").toList
  else if 45 ≤ m ∧ m < 60 then some ("_1h").toList
  else if 30 ≤ m ∧ m < 45 then some ("_45m").toList
  else if 15 ≤ m ∧ m < 30 then some ("_30m").toList
  else if 0 ≤ m ∧ m < 15 then some ("_15m").toList
  else none

/-- The single bucket of `check_deadline_notifications` on `total_hours`. -/
def deadlineBucket (h : ℚ) : Option (List Char) :=
  if 6 ≤ h ∧ h ≤ 8 then some ("_today").toList else none

structure NotifItem where
  fileName : Line
  title : Line
  fileTitle : Line

/-- `check_schedule_notifications`: if the bucket's dedup key is not yet in
`sent_notifications`, broadcast and record it.  The result is the new
recorded-key set together with the keys broadcast by this call. -/
def check_schedule_notifications (sent : List (List Char)) (item : NotifItem)
    (schedIso : List Char) (m : ℚ) : List (List Char) × List (List Char) :=
  let nid := ("schedule_").toList ++ item.fileName ++ '_' :: item.title ++ '_' :: schedIso
  match scheduleBucket m with
  | some suf =>
    let k := nid ++ suf
    if k ∈ sent then (sent, []) else (k :: sent, [k])
  | none => (sent, [])

/-- `check_deadline_notifications`, same shape with the deadline key. -/
def check_deadline_notifications (sent : List (List Char)) (item : NotifItem)
    (deadlineDateIso : List Char) (hrs : ℚ) : List (List Char) × List (List Char) :=
  let nid := ("deadline_").toList ++ item.fileName ++ '_' :: item.title ++ '_' :: deadlineDateIso
  match deadlineBucket hrs with
  | some suf =>
    let k := nid ++ suf
    if k ∈ sent then (sent, []) else (k :: sent, [k])
  | none => (sent, [])

/-- One threshold check performed by the watch loop. -/
inductive NotifEvent where
  | sched (item : NotifItem) (schedIso : List Char) (m : ℚ)
  | dead (item : NotifItem) (deadlineDateIso : List Char) (hrs : ℚ)

def notifStep (sent : List (List Char)) :
    NotifEvent → List (List Char) × List (List Char)
  | NotifEvent.sched item iso m => check_schedule_notifications sent item iso m
  | NotifEvent.dead item iso hrs => check_deadline_notifications sent item iso hrs

/-- A sequence of threshold checks within one process lifetime: threads the
`sent_notifications` set and concatenates everything broadcast. -/
def runNotifications : List NotifEvent → List (List Char) →
    List (List Char) × List (List Char)
  | [], sent => (sent, [])
  | e :: es, sent =>
    let r := notifStep sent e
    let rest := runNotifications es r.1
    (rest.1, r.2 ++ rest.2)

/-- `send_notification_to_subscribers`: the loop sends to each subscriber in
turn, but the `try`/`except` surrounds the whole loop, so the first failing
send aborts it.  `sendOk s` tells whether `send_message(mto=s, ...)` raises;
the result is the list of subscribers that receive a send attempt. -/
def send_notification_to_subscribers (subscribers : List Line)
    (sendOk : Line → Bool) : List Line :=
  match subscribers with
  | [] => []
  | s :: rest =>
    if sendOk s then s :: send_notification_to_subscribers rest sendOk
    else [s]

/-- Forget the `is_task_file` attribute of an item (the one attribute the two
extraction variants compute differently). -/
def eraseTaskFlag (i : Item) : Item := { i with isTaskFile := false }

/-- The relation between the two extraction variants' accumulated buckets:
schedules and deadlines agree up to the `is_task_file` attribute, and the
task-only variant's TODO buckets are the full variant's restricted to files
with a `task` filetag. -/
def BucketsRel (stF stT : AgendaState) : Prop :=
  stT.schedulesToday.map eraseTaskFlag = stF.schedulesToday.map eraseTaskFlag ∧
  stT.deadlinesToday.map eraseTaskFlag = stF.deadlinesToday.map eraseTaskFlag ∧
  stT.todosACTIVE.map eraseTaskFlag =
    (stF.todosACTIVE.filter fun i => has_task_filetag i.fileName).map eraseTaskFlag ∧
  stT.todosNEXT.map eraseTaskFlag =
    (stF.todosNEXT.filter fun i => has_task_filetag i.fileName).map eraseTaskFlag ∧
  stT.todosTODO.map eraseTaskFlag =
    (stF.todosTODO.filter fun i => has_task_filetag i.fileName).map eraseTaskFlag ∧
  stT.todosWAIT.map eraseTaskFlag =
    (stF.todosWAIT.filter fun i => has_task_filetag i.fileName).map eraseTaskFlag

/-- Strip `todo:`-prefixed dedup keys (the only keys the task-only variant may
omit from `processed_items`). -/
def removeTodoIds (l : List (List Char)) : List (List Char) :=
  l.filter fun id => !(("todo:").toList.isPrefixOf id)

/-- A one-node org file whose name carries `_task` but no `__task` filetag
segment — the two variants' task-file tests disagree on it. -/
def c4File : OrgFile :=
  { name := ("x_task.org").toList,
    content := ("* H\nSCHEDULED: <2024-01-05 Fri>").toList,
    forest := OForest.cons (ONode.mk ("H").toList none [] none OForest.nil) OForest.nil }

def c4Today : Date := ⟨2024, 1, 5⟩

/-! ### Properties of the heading locator -/

theorem nextBoundary_le (lvl : Nat) (ls : List Line) :
    nextBoundary lvl ls ≤ ls.length := by
  induction ls with
  | nil => simp [nextBoundary]
  | cons l ls ih =>
    by_cases hb : isBoundary lvl l
    · simp [nextBoundary, hb]
    · rw [nextBoundary, if_neg hb]
      simp only [List.length_cons]
      omega

theorem nextBoundary_spec (lvl : Nat) (ls : List Line) :
    (∀ k, k < nextBoundary lvl ls → ∀ l, ls[k]? = some l →
      isBoundary lvl l = false) ∧
    (nextBoundary lvl ls = ls.length ∨
      ∃ l, ls[nextBoundary lvl ls]? = some l ∧ isBoundary lvl l = true) := by
  induction ls with
  | nil =>
    refine ⟨fun k hk => ?_, Or.inl rfl⟩
    simp [nextBoundary] at hk
  | cons l ls ih =>
    by_cases hb : isBoundary lvl l
    · refine ⟨fun k hk => ?_, Or.inr ⟨l, ?_, hb⟩⟩
      · simp [nextBoundary, hb] at hk
      · simp [nextBoundary, hb]
    · constructor
      · intro k hk l' hl'
        rw [nextBoundary, if_neg hb] at hk
        match k with
        | 0 =>
          simp only [List.getElem?_cons_zero, Option.some.injEq] at hl'
          subst hl'
          exact Bool.eq_false_iff.mpr hb
        | k + 1 =>
          simp only [List.getElem?_cons_succ] at hl'
          exact ih.1 k (by omega) l' hl'
      · rcases ih.2 with h | ⟨l', hl', hbl'⟩
        · left; simp [nextBoundary, hb, h]
        · right
          exact ⟨l', by simpa [nextBoundary, hb] using hl', hbl'⟩

theorem findHeadingLines_none_iff (t : Line) (lvl : Nat) (ls : List Line) :
    findHeadingLines t lvl ls = none ↔ ∀ l ∈ ls, isTarget t lvl l = false := by
  induction ls with
  | nil => simp [findHeadingLines]
  | cons l ls ih =>
    by_cases ht : isTarget t lvl l
    · simp [findHeadingLines, ht]
    · rw [findHeadingLines, if_neg ht]
      simp only [Option.map_eq_none', List.mem_cons]
      constructor
      · intro h l' hl'
        rcases hl' with rfl | hl'
        · exact Bool.eq_false_iff.mpr ht
        · exact (ih.mp h) l' hl'
      · intro h
        exact ih.mpr fun l' hl' => h l' (Or.inr hl')

theorem findHeadingLines_some (t : Line) (lvl : Nat) (ls : List Line)
    (i e : Nat) (h : findHeadingLines t lvl ls = some (i, e)) :
    (∃ l, ls[i]? = some l ∧ isTarget t lvl l = true) ∧
    (∀ k, k < i → ∀ l, ls[k]? = some l → isTarget t lvl l = false) ∧
    e = i + 1 + nextBoundary lvl (ls.drop (i + 1)) := by
  induction ls generalizing i e with
  | nil => simp [findHeadingLines] at h
  | cons l ls ih =>
    by_cases ht : isTarget t lvl l
    · rw [findHeadingLines, if_pos ht] at h
      obtain ⟨rfl, rfl⟩ : i = 0 ∧ e = nextBoundary lvl ls + 1 := by
        simpa using h.symm
      refine ⟨⟨l, by simp, ht⟩, fun k hk => by omega, ?_⟩
      simp only [List.drop_succ_cons, List.drop_zero]
      omega
    · rw [findHeadingLines, if_neg ht] at h
      match hrec : findHeadingLines t lvl ls with
      | none => rw [hrec] at h; simp at h
      | some (i', e') =>
        rw [hrec] at h
        simp only [Option.map_some', Option.some.injEq, Prod.mk.injEq] at h
        obtain ⟨rfl, rfl⟩ : i = i' + 1 ∧ e = e' + 1 := ⟨h.1.symm, h.2.symm⟩
        obtain ⟨⟨l', hl', htl'⟩, hmin, hend⟩ := ih i' e' hrec
        refine ⟨⟨l', by simpa using hl', htl'⟩, ?_, ?_⟩
        · intro k hk l'' hl''
          match k with
          | 0 =>
            simp only [List.getElem?_cons_zero, Option.some.injEq] at hl''
            subst hl''
            exact Bool.eq_false_iff.mpr ht
          | k + 1 =>
            simp only [List.getElem?_cons_succ] at hl''
            exact hmin k (by omega) l'' hl''
        · rw [List.drop_succ_cons]
          omega

theorem findHeadingLines_eq_some (t : Line) (lvl : Nat) (ls : List Line)
    (i : Nat) (l : Line) (hl : ls[i]? = some l) (ht : isTarget t lvl l = true)
    (hmin : ∀ k, k < i → ∀ l', ls[k]? = some l' → isTarget t lvl l' = false) :
    findHeadingLines t lvl ls =
      some (i, i + 1 + nextBoundary lvl (ls.drop (i + 1))) := by
  induction ls generalizing i with
  | nil => simp at hl
  | cons a ls ih =>
    match i with
    | 0 =>
      simp only [List.getElem?_cons_zero, Option.some.injEq] at hl
      subst hl
      rw [findHeadingLines, if_pos ht]
      simp only [List.drop_succ_cons, List.drop_zero, Nat.zero_add,
        Nat.add_comm 1 (nextBoundary lvl ls)]
    | i + 1 =>
      simp only [List.getElem?_cons_succ] at hl
      have ha : isTarget t lvl a = false := hmin 0 (by omega) a (by simp)
      rw [findHeadingLines, if_neg (by simp [ha])]
      rw [ih i hl fun k hk l' hl' =>
        hmin (k + 1) (by omega) l' (by simpa using hl')]
      simp [List.drop_succ_cons]
      omega

/-- C1: `find_heading_in_content` returns `not_found` exactly when no line
matches the heading condition; on success it returns the topmost matching
line index `i` together with the index of the first later line that is a
heading of level ≤ `level` (the total line count when none exists): the end
index is **strictly** after the start, no line strictly between them is a
boundary, and `body_start_line < body_end_line ≤ total line count` (which in
particular gives the claim's `body_start_line ≤ body_end_line`). -/
theorem C1_find_heading_locator (content : List Char) (target : Line)
    (level : Nat) (hlevel : 1 ≤ level) :
    (find_heading_in_content content target level = none ↔
      ∀ l ∈ splitLines content, isTarget target level l = false) ∧
    (∀ i e, find_heading_in_content content target level = some (i, e) →
      (∃ l, (splitLines content)[i]? = some l ∧ isTarget target level l = true) ∧
      (∀ k, k < i → ∀ l, (splitLines content)[k]? = some l →
        isTarget target level l = false) ∧
      i < e ∧ e ≤ (splitLines content).length ∧
      (∀ k, i < k → k < e → ∀ l, (splitLines content)[k]? = some l →
        isBoundary level l = false) ∧
      (e = (splitLines content).length ∨
        ∃ l, (splitLines content)[e]? = some l ∧ isBoundary level l = true)) := by
  clear hlevel
  set ls := splitLines content with hls
  refine ⟨findHeadingLines_none_iff target level ls, ?_⟩
  intro i e h
  obtain ⟨⟨l, hl, htl⟩, hmin, hend⟩ := findHeadingLines_some target level ls i e h
  have hi : i < ls.length := by
    by_contra hcon
    rw [List.getElem?_eq_none (by omega)] at hl
    exact Option.noConfusion hl
  have hdroplen : (ls.drop (i + 1)).length = ls.length - (i + 1) :=
    List.length_drop _ _
  have hnb := nextBoundary_spec level (ls.drop (i + 1))
  have hnble := nextBoundary_le level (ls.drop (i + 1))
  refine ⟨⟨l, hl, htl⟩, hmin, by omega, by omega, ?_, ?_⟩
  · intro k hik hke l' hl'
    have hk' : ls[k]? = (ls.drop (i + 1))[k - (i + 1)]? := by
      rw [List.getElem?_drop]
      congr 1
      omega
    exact hnb.1 (k - (i + 1)) (by omega) l' (by rw [← hk', hl'])
  · rcases hnb.2 with hlen | ⟨l', hl', hbl'⟩
    · left; omega
    · right
      refine ⟨l', ?_, hbl'⟩
      rw [hend, ← hl', List.getElem?_drop]

/-- Witness for C1 at a concrete document. -/
theorem C1_find_heading_locator_witness :
    find_heading_in_content ("* A\nbody").toList ("A").toList 1 ≠ none := by
  intro h
  have hnone :=
    (C1_find_heading_locator ("* A\nbody").toList ("A").toList 1 (by decide)).1.mp h
  have := hnone ("* A").toList (by decide)
  exact absurd this (by decide)

/-! ### Lines, joining and trimming -/

theorem splitLines_ne_nil (cs : List Char) : splitLines cs ≠ [] := by
  induction cs with
  | nil => simp [splitLines]
  | cons c cs ih =>
    rw [splitLines]
    by_cases h : c = '\n'
    · simp [h]
    · rw [if_neg h]
      cases hs : splitLines cs with
      | nil => simp
      | cons l ls => simp

theorem mem_splitLines_no_newline (cs : List Char) :
    ∀ l ∈ splitLines cs, '\n' ∉ l := by
  induction cs with
  | nil =>
    intro l hl
    simp [splitLines] at hl
    simp [hl]
  | cons c cs ih =>
    intro l hl
    rw [splitLines] at hl
    by_cases h : c = '\n'
    · rw [if_pos h] at hl
      rcases List.mem_cons.mp hl with rfl | hl
      · simp
      · exact ih l hl
    · rw [if_neg h] at hl
      cases hs : splitLines cs with
      | nil =>
        rw [hs] at hl
        simp at hl
        subst hl
        intro hm
        rcases List.mem_cons.mp hm with h1 | h1
        · exact h h1.symm
        · simp at h1
      | cons a as =>
        rw [hs] at hl
        rcases List.mem_cons.mp hl with rfl | hl
        · intro hm
          rcases List.mem_cons.mp hm with h1 | h1
          · exact h h1.symm
          · exact ih a (by rw [hs]; exact List.mem_cons_self a as) h1
        · exact ih l (by rw [hs]; exact List.mem_cons.mpr (Or.inr hl))

theorem splitLines_single (l : Line) (h : '\n' ∉ l) : splitLines l = [l] := by
  induction l with
  | nil => rfl
  | cons c cs ih =>
    rw [splitLines, if_neg (fun hc => h (by rw [hc]; exact List.mem_cons_self _ _)),
      ih fun hm => h (List.mem_cons.mpr (Or.inr hm))]

theorem splitLines_append_newline (l : Line) (cs : List Char) (h : '\n' ∉ l) :
    splitLines (l ++ '\n' :: cs) = l :: splitLines cs := by
  induction l with
  | nil => simp [splitLines]
  | cons c l ih =>
    rw [List.cons_append, splitLines,
      if_neg (fun hc => h (by rw [hc]; exact List.mem_cons_self _ _)),
      ih fun hm => h (List.mem_cons.mpr (Or.inr hm))]

theorem splitLines_joinLines (ls : List Line) (hne : ls ≠ [])
    (h : ∀ l ∈ ls, '\n' ∉ l) : splitLines (joinLines ls) = ls := by
  induction ls with
  | nil => cases hne rfl
  | cons l ls ih =>
    cases ls with
    | nil => exact splitLines_single l (h l (by simp))
    | cons a as =>
      have hj : joinLines (l :: a :: as) = l ++ '\n' :: joinLines (a :: as) := rfl
      rw [hj, splitLines_append_newline l _ (h l (by simp)),
        ih (by simp) fun x hx => h x (List.mem_cons.mpr (Or.inr hx))]

theorem dropWhile_dropWhile (p : Char → Bool) (l : List Char) :
    List.dropWhile p (List.dropWhile p l) = List.dropWhile p l := by
  induction l with
  | nil => rfl
  | cons c l ih =>
    by_cases hp : p c
    · rw [List.dropWhile_cons_of_pos hp]
      exact ih
    · rw [List.dropWhile_cons_of_neg hp, List.dropWhile_cons_of_neg hp]

theorem trim_sublist (l : Line) : (trim l).Sublist l := by
  have h1 : (l.dropWhile isWS).Sublist l := List.dropWhile_sublist _
  have h2 : (((l.dropWhile isWS).reverse.dropWhile isWS).reverse).Sublist
      ((l.dropWhile isWS).reverse.reverse) :=
    (List.dropWhile_sublist _).reverse
  rw [List.reverse_reverse] at h2
  exact h2.trans h1

theorem mem_trim {a : Char} {l : Line} (h : a ∈ trim l) : a ∈ l :=
  (trim_sublist l).subset h

theorem trim_isPrefix_dropWhile (l : Line) : trim l <+: l.dropWhile isWS := by
  have h : ((l.dropWhile isWS).reverse.dropWhile isWS) <:+ (l.dropWhile isWS).reverse :=
    List.dropWhile_suffix _
  have h2 := List.reverse_prefix.mpr h
  rwa [List.reverse_reverse] at h2

theorem trim_no_leading_ws (l : Line) : (trim l).dropWhile isWS = trim l := by
  rcases ht : trim l with _ | ⟨c, t⟩
  · rfl
  · have hp : (c :: t) <+: l.dropWhile isWS := ht ▸ trim_isPrefix_dropWhile l
    obtain ⟨rest, hrest⟩ := hp
    rw [List.cons_append] at hrest
    by_cases hc : isWS c
    · exfalso
      have hidem := dropWhile_dropWhile isWS l
      rw [← hrest] at hidem
      rw [List.dropWhile_cons_of_pos hc] at hidem
      have hlen : (List.dropWhile isWS (t ++ rest)).length =
          (c :: (t ++ rest)).length := congrArg List.length hidem
      have hle := (List.dropWhile_sublist (l := t ++ rest) isWS).length_le
      rw [List.length_cons] at hlen
      omega
    · rw [List.dropWhile_cons_of_neg hc]

theorem trim_no_trailing_ws (l : Line) :
    ((trim l).reverse.dropWhile isWS).reverse = trim l := by
  have h : (trim l).reverse = (l.dropWhile isWS).reverse.dropWhile isWS := by
    rw [trim, List.reverse_reverse]
  rw [h, dropWhile_dropWhile, ← h, List.reverse_reverse]

theorem trim_trim (l : Line) : trim (trim l) = trim l := by
  have h1 : (trim l).dropWhile isWS = trim l := trim_no_leading_ws l
  rw [trim, h1, trim_no_trailing_ws]

theorem trim_cons_ws {c : Char} (hc : isWS c) (l : Line) :
    trim (c :: l) = trim l := by
  rw [trim, trim, List.dropWhile_cons_of_pos hc]

example : find_heading_in_content ("* A\n** B\nbody\n* C").toList ("B").toList 2 =
    some (1, 3) := by decide

example : find_heading_in_content ("* A\nx").toList ("Z").toList 1 = none := by decide

example : get_heading_content ("* A\n\nhello\n\n* B").toList ("A").toList 1 =
    ("hello").toList := by decide

example : add_heading_to_content ("* A\n").toList [] 0 ("B").toList [] 1 =
    ("* A\n\n* B").toList := by decide

example : update_heading_in_content ("* A\nbody\n* C").toList ("A").toList
    ("A").toList [] 1 = ("* A\n* C").toList := by decide

/-! ### Heading lines built by the editors -/

theorem headingMatch_eq_some {l : Line} {p : Nat} {t : Line}
    (h : headingMatch l = some (p, t)) :
    p = starCount l ∧ 1 ≤ p ∧ t = trim (l.drop (starCount l)) := by
  rw [headingMatch] at h
  split at h
  next c d rest heq =>
    split_ifs at h with hc
    · simp only [Option.some.injEq, Prod.mk.injEq] at h
      exact ⟨h.1.symm, h.1 ▸ hc.1, h.2.symm⟩
  next => exact Option.noConfusion h

theorem isTarget_eq_true {t : Line} {lvl : Nat} {l : Line}
    (h : isTarget t lvl l = true) : headingMatch l = some (lvl, t) := by
  rw [isTarget] at h
  split at h
  next p t' heq =>
    simp only [Bool.and_eq_true, decide_eq_true_eq] at h
    rw [heq, h.1, h.2]
  next => exact Bool.noConfusion h

theorem starCount_replicate_append (n : Nat) (l : Line) :
    starCount (List.replicate n '*' ++ ' ' :: l) = n := by
  induction n with
  | zero =>
    rw [List.replicate_zero, List.nil_append, starCount, if_neg (by decide)]
  | succ n ih =>
    rw [List.replicate_succ, List.cons_append, starCount, if_pos rfl, ih]

theorem drop_replicate_append (n : Nat) (l : Line) :
    (List.replicate n '*' ++ ' ' :: l).drop n = ' ' :: l := by
  induction n with
  | zero => rfl
  | succ n ih => rw [List.replicate_succ, List.cons_append, List.drop_succ_cons, ih]

theorem headingMatch_newHeadingLine (lvl : Nat) (L : Line) (hlvl : 1 ≤ lvl)
    (hL : L ≠ []) (htrim : trim L = L) :
    headingMatch (List.replicate lvl '*' ++ ' ' :: L) = some (lvl, L) := by
  cases L with
  | nil => cases hL rfl
  | cons a L' =>
    rw [headingMatch]
    simp only [starCount_replicate_append, drop_replicate_append]
    rw [if_pos ⟨hlvl, by decide⟩]
    rw [trim_cons_ws (by decide), htrim]

theorem isTarget_newHeadingLine (lvl : Nat) (L : Line) (hlvl : 1 ≤ lvl)
    (hL : L ≠ []) (htrim : trim L = L) :
    isTarget L lvl (List.replicate lvl '*' ++ ' ' :: L) = true := by
  rw [isTarget, headingMatch_newHeadingLine lvl L hlvl hL htrim]
  simp

/-- C7 (amended): replacing a heading with a non-empty label by itself with an
empty body, then reading that heading's content, yields the empty string. -/
theorem C7_replace_then_read_empty (content : List Char) (L : Line)
    (level : Nat) (hL : L ≠ [])
    (hfound : find_heading_in_content content L level ≠ none) :
    get_heading_content (update_heading_in_content content L L [] level)
      L level = [] := by
  obtain ⟨⟨s, e⟩, hse⟩ : ∃ p, find_heading_in_content content L level = some p := by
    cases h : find_heading_in_content content L level with
    | none => exact absurd h hfound
    | some p => exact ⟨p, rfl⟩
  obtain ⟨⟨l, hl, htl⟩, hmin, hend⟩ :=
    findHeadingLines_some L level (splitLines content) s e hse
  have hmatch : headingMatch l = some (level, L) := isTarget_eq_true htl
  obtain ⟨hplvl, hp1, htL⟩ := headingMatch_eq_some hmatch
  have htrimL : trim L = L := by rw [htL, trim_trim]
  have hlmem : l ∈ splitLines content := List.getElem?_mem hl
  have hs_lt : s < (splitLines content).length := by
    by_contra hcon
    rw [List.getElem?_eq_none (by omega)] at hl
    exact Option.noConfusion hl
  set A := (splitLines content).take s with hA
  set B := (splitLines content).drop e with hB
  set hline := List.replicate level '*' ++ ' ' :: L with hhline
  have htake_len : A.length = s := by
    rw [hA, List.length_take]
    omega
  have hupd : update_heading_in_content content L L [] level =
      joinLines (A ++ hline :: B) := by
    rw [update_heading_in_content, hse]
    simp only [trim, List.dropWhile_nil, List.reverse_nil, ne_eq,
      not_true_eq_false, if_false, ← List.append_assoc]
    rw [List.append_assoc, List.singleton_append]
  have hnn : ∀ x ∈ A ++ hline :: B, '\n' ∉ x := by
    intro x hx
    rcases List.mem_append.mp hx with hx | hx
    · exact mem_splitLines_no_newline content x ((List.take_sublist _ _).subset hx)
    · rcases List.mem_cons.mp hx with rfl | hx
      · intro hmem
        rcases List.mem_append.mp hmem with hm | hm
        · exact absurd (List.eq_of_mem_replicate hm) (by decide)
        · rcases List.mem_cons.mp hm with hm | hm
          · exact absurd hm (by decide)
          · have : '\n' ∈ l := List.drop_subset _ _ (mem_trim (htL ▸ hm))
            exact mem_splitLines_no_newline content l hlmem this
      · exact mem_splitLines_no_newline content x ((List.drop_subset _ _) hx)
  have hsplit : splitLines (joinLines (A ++ hline :: B)) = A ++ hline :: B :=
    splitLines_joinLines _ (by simp) hnn
  have hgetline : (A ++ hline :: B)[s]? = some hline := by
    rw [List.getElem?_append_right (le_of_eq htake_len), htake_len]
    simp
  have hmin2 : ∀ k, k < s → ∀ l', (A ++ hline :: B)[k]? = some l' →
      isTarget L level l' = false := by
    intro k hk l' hl'
    rw [List.getElem?_append, if_pos (by rw [htake_len]; exact hk), hA,
      List.getElem?_take, if_pos hk] at hl'
    exact hmin k hk l' hl'
  have hfind2 := findHeadingLines_eq_some L level (A ++ hline :: B) s _ hgetline
    (isTarget_newHeadingLine level L (hplvl ▸ hp1) hL htrimL) hmin2
  have hdrop2 : (A ++ hline :: B).drop (s + 1) = B := by
    have hstep : A ++ hline :: B = (A ++ [hline]) ++ B := by
      rw [List.append_assoc, List.singleton_append]
    have hlen2 : (A ++ [hline]).length = s + 1 := by simp [htake_len]
    rw [hstep, show s + 1 = (A ++ [hline]).length + 0 from by rw [hlen2],
      List.drop_append, List.drop_zero]
  have hnb : nextBoundary level B = 0 := by
    have hnble := nextBoundary_le level ((splitLines content).drop (s + 1))
    have hdlen : ((splitLines content).drop (s + 1)).length =
        (splitLines content).length - (s + 1) := List.length_drop _ _
    rcases (nextBoundary_spec level ((splitLines content).drop (s + 1))).2 with
      hlen3 | ⟨l', hl', hbl'⟩
    · have he : e = (splitLines content).length := by omega
      rw [hB, he, List.drop_length]
      rfl
    · have hle : (splitLines content)[e]? = some l' := by
        rw [hend, ← List.getElem?_drop]
        exact hl'
      obtain ⟨helt, hval⟩ := List.getElem?_eq_some.mp hle
      rw [hB, List.drop_eq_getElem_cons helt, hval, nextBoundary, if_pos hbl']
  have hfindupd : find_heading_in_content
      (update_heading_in_content content L L [] level) L level = some (s, s + 1) := by
    rw [hupd, find_heading_in_content, hsplit, hfind2, hdrop2, hnb]
  rw [get_heading_content, hfindupd]
  simp

/-- Witness for C7 at a concrete document. -/
theorem C7_replace_then_read_empty_witness :
    get_heading_content (update_heading_in_content
      ("* A\nbody\n* B").toList ("A").toList ("A").toList [] 1)
      ("A").toList 1 = [] :=
  C7_replace_then_read_empty ("* A\nbody\n* B").toList ("A").toList 1
    (by decide) (by decide)

/-- C6 counterexample: `add_heading_to_content("* A\n", None, "B", "", 1)`
returns `"* A\n\n* B"`, not the `"* A\n* B\n"` the claim promises (the blank
last line left by the trailing newline stays, and no trailing newline is
appended). -/
theorem C6_counterexample :
    add_heading_to_content ("* A\n").toList [] 0 ("B").toList [] 1 ≠
      ("* A\n* B\n").toList := by decide

/-- C6 (amended): with an empty/absent parent the insertion point is the end
of the document: the result is the document's lines, then a blank separator
line **exactly when the document's last line is non-blank** (and no separator
when it is blank), then the new heading line and its body; the concrete
example yields `"* A\n\n* B"`. -/
theorem C6_append_at_end :
    add_heading_to_content ("* A\n").toList [] 0 ("B").toList [] 1 =
      ("* A\n\n* B").toList ∧
    ∀ (content : List Char) (plvl lvl : Nat) (label : Line) (body : List Char),
      add_heading_to_content content [] plvl label body lvl =
        joinLines (splitLines content ++
          (if trim ((splitLines content).getLast (splitLines_ne_nil content)) = []
            then [] else [[]]) ++
          (List.replicate lvl '*' ++ ' ' :: label) ::
          (if trim body ≠ [] then [] :: splitLines body else [])) := by
  refine ⟨by decide, ?_⟩
  intro content plvl lvl label body
  rw [add_heading_to_content]
  simp only [ne_eq, not_true_eq_false, if_false, List.take_length,
    List.drop_length, List.append_nil]
  rw [dif_pos (splitLines_ne_nil content)]
  by_cases hbody : trim body = []
  · by_cases hlast : trim ((splitLines content).getLast (splitLines_ne_nil content)) = []
    · rw [if_neg (by simpa using hbody), if_neg (by simpa using hlast),
        if_pos hlast, if_neg (by simpa using hbody)]
      simp
    · rw [if_neg (by simpa using hbody), if_pos (by simpa using hlast),
        if_neg hlast, if_neg (by simpa using hbody)]
  · by_cases hlast : trim ((splitLines content).getLast (splitLines_ne_nil content)) = []
    · rw [if_pos (by simpa using hbody), if_neg (by simpa using hlast),
        if_pos hlast, if_pos (by simpa using hbody)]
      simp
    · rw [if_pos (by simpa using hbody), if_pos (by simpa using hlast),
        if_neg hlast, if_pos (by simpa using hbody)]
      simp

/-! ### Title extraction -/

theorem findSome?_guard_none_iff {α β : Type} (cond : α → Bool) (val : α → β)
    (ls : List α) :
    (ls.findSome? fun a => if cond a then some (val a) else none) = none ↔
      ∀ a ∈ ls, cond a = false := by
  induction ls with
  | nil => simp
  | cons a ls ih =>
    by_cases h : cond a
    · simp [List.findSome?_cons, h]
    · simp [List.findSome?_cons, h, ih]

theorem findSome?_guard_some {α β : Type} (cond : α → Bool) (val : α → β)
    (ls : List α) (t : β)
    (h : (ls.findSome? fun a => if cond a then some (val a) else none) = some t) :
    ∃ (i : Nat) (a : α), ls[i]? = some a ∧ cond a = true ∧
      (∀ k, k < i → ∀ b, ls[k]? = some b → cond b = false) ∧ t = val a := by
  induction ls with
  | nil => simp at h
  | cons a ls ih =>
    by_cases hc : cond a
    · rw [List.findSome?_cons, if_pos hc] at h
      refine ⟨0, a, by simp, hc, fun k hk => absurd hk (Nat.not_lt_zero k), ?_⟩
      simpa using h.symm
    · rw [List.findSome?_cons, if_neg hc] at h
      obtain ⟨i, b, hb, hcb, hmin, hval⟩ := ih h
      refine ⟨i + 1, b, by simpa using hb, hcb, ?_, hval⟩
      intro k hk b' hb'
      match k with
      | 0 =>
        simp only [List.getElem?_cons_zero, Option.some.injEq] at hb'
        subst hb'
        exact Bool.eq_false_iff.mpr hc
      | k + 1 =>
        simp only [List.getElem?_cons_succ] at hb'
        exact hmin k (by omega) b' hb'

/-- C8 (amended): the title comes from the first line starting with the exact
strings `#+title:` or `#+TITLE:` (other casings are not matched), as the
trimmed text after the first colon; when no such line exists — or the
extracted title is empty — the file's base name is used instead. -/
theorem C8_title_extraction (content : List Char) (stem : Line) :
    (extract_title_from_content content = none ↔
      ∀ l ∈ splitLines content,
        (("#+title:").toList.isPrefixOf l || ("#+TITLE:").toList.isPrefixOf l) =
          false) ∧
    (∀ t, extract_title_from_content content = some t →
      ∃ (i : Nat) (l : Line), (splitLines content)[i]? = some l ∧
        (("#+title:").toList.isPrefixOf l || ("#+TITLE:").toList.isPrefixOf l) =
          true ∧
        (∀ k, k < i → ∀ l', (splitLines content)[k]? = some l' →
          (("#+title:").toList.isPrefixOf l' || ("#+TITLE:").toList.isPrefixOf l') =
            false) ∧
        t = trim (l.dropWhile (fun c => c ≠ ':')).tail) ∧
    (extract_title_from_content content = none →
      fileTitle content stem = stem) ∧
    (extract_title_from_content content = some [] →
      fileTitle content stem = stem) := by
  refine ⟨?_, ?_, ?_, ?_⟩
  · rw [extract_title_from_content]
    exact findSome?_guard_none_iff _ _ _
  · intro t ht
    rw [extract_title_from_content] at ht
    exact findSome?_guard_some _ _ _ t ht
  · intro hnone
    rw [fileTitle, hnone]
  · intro hempty
    rw [fileTitle, hempty]
    simp

/-- Witness for C8 at concrete documents. -/
theorem C8_title_extraction_witness :
    fileTitle ("no title here").toList ("stem").toList = ("stem").toList := by
  have h := (C8_title_extraction ("no title here").toList ("stem").toList).2.2.1
  exact h (by decide)

/-- C8 counterexample: `#+Title:` (mixed case) is **not** recognised — the
code checks only the exact casings `#+title:` and `#+TITLE:` — so the title
falls back to the base name instead of `Hello`. -/
theorem C8_counterexample :
    extract_title_from_content ("#+Title: Hello\nx").toList = none ∧
    fileTitle ("#+Title: Hello\nx").toList ("base").toList = ("base").toList ∧
    ("base").toList ≠ ("Hello").toList := by
  refine ⟨by decide, by decide, by decide⟩

/-! ### Timestamp extraction -/

theorem splitWSAux_head (acc v : List Char) :
    (splitWSAux acc v).head? =
      if acc = [] then firstTokenSpec v
      else some (acc.reverse ++ v.takeWhile fun c => !isWS c) := by
  induction v generalizing acc with
  | nil =>
    by_cases h : acc = [] <;> simp [splitWSAux, h, firstTokenSpec]
  | cons c v ih =>
    by_cases hc : isWS c
    · by_cases h : acc = []
      · subst h
        rw [splitWSAux, if_pos hc, if_pos rfl, ih, if_pos rfl, if_pos rfl,
          firstTokenSpec, firstTokenSpec, List.dropWhile_cons_of_pos hc]
      · rw [splitWSAux, if_pos hc, if_neg h, if_neg h,
          List.takeWhile_cons_of_neg (by simp [hc]), List.append_nil]
        rfl
    · rw [splitWSAux, if_neg hc, ih, if_neg (by simp)]
      by_cases h : acc = []
      · subst h
        rw [if_pos rfl, firstTokenSpec, List.dropWhile_cons_of_neg hc,
          List.takeWhile_cons_of_pos (by simp [hc])]
        simp
      · rw [if_neg h, List.takeWhile_cons_of_pos (by simp [hc])]
        simp

theorem splitWS_head (v : List Char) : (splitWS v).head? = firstTokenSpec v := by
  rw [splitWS, splitWSAux_head, if_pos rfl]

/-- C9 (amended): timestamps are extracted from the `KEY: <...>` regex match
by parsing the **first whitespace-delimited token** of the bracketed value in
format `YYYY-MM-DD`; a missing or unparsable token silently yields "absent" —
the extraction is total and never an error. -/
theorem C9_timestamp_extraction (contentAfterHeading : List Char) :
    parse_timestamps_in_content contentAfterHeading =
      ((searchTimestamp schedKey contentAfterHeading).bind fun v =>
        (firstTokenSpec v).bind parseYMD,
       (searchTimestamp deadKey contentAfterHeading).bind fun v =>
        (firstTokenSpec v).bind parseYMD) := by
  simp only [parse_timestamps_in_content, extractStamp, splitWS_head]

/-- C9 counterexample: for `SCHEDULED: <2024-01-05x>` the code parses the
whole first token `2024-01-05x` — which fails, so the date is absent — while
the claim's first-ten-characters reading would succeed with 2024-01-05. -/
theorem C9_counterexample :
    (parse_timestamps_in_content ("SCHEDULED: <2024-01-05x>").toList).1 = none ∧
    extractStampFirst10 schedKey ("SCHEDULED: <2024-01-05x>").toList =
      some ⟨2024, 1, 5⟩ := by
  refine ⟨by decide, by decide⟩

/-! ### The per-file section index -/

theorem sectionsGet_insert_self (k : Line) (v : List Char)
    (d : List (Line × List Char)) :
    sectionsGet k (sectionsInsert k v d) = some v := by
  induction d with
  | nil => simp [sectionsInsert, sectionsGet]
  | cons p d ih =>
    obtain ⟨k', v'⟩ := p
    by_cases h : k' = k
    · subst h
      rw [sectionsInsert, if_pos rfl, sectionsGet, if_pos rfl]
    · rw [sectionsInsert, if_neg h, sectionsGet, if_neg h, ih]

theorem sectionsGet_insert_ne (k k' : Line) (v : List Char)
    (d : List (Line × List Char)) (h : k ≠ k') :
    sectionsGet k (sectionsInsert k' v d) = sectionsGet k d := by
  induction d with
  | nil => simp [sectionsInsert, sectionsGet, Ne.symm h]
  | cons p d ih =>
    obtain ⟨k'', v''⟩ := p
    by_cases h2 : k'' = k'
    · subst h2
      rw [sectionsInsert, if_pos rfl, sectionsGet, sectionsGet,
        if_neg (fun hc => h hc.symm), if_neg (fun hc => h hc.symm)]
    · rw [sectionsInsert, if_neg h2]
      by_cases h3 : k'' = k
      · subst h3
        rw [sectionsGet, if_pos rfl, sectionsGet, if_pos rfl]
      · rw [sectionsGet, if_neg h3, sectionsGet, if_neg h3, ih]

theorem sectionsGet_store (key : Line) (hkey : key ≠ []) (cur : Option Line)
    (acc : List Line) (d : List (Line × List Char)) :
    sectionsGet key (storeSection cur acc d) =
      if cur = some key then some (joinLines acc) else sectionsGet key d := by
  match cur with
  | none => rw [storeSection, if_neg (by simp)]
  | some k =>
    by_cases hk : k = []
    · subst hk
      rw [storeSection, if_neg (by simp), if_neg (by simp [Ne.symm hkey])]
    · by_cases hke : k = key
      · subst hke
        rw [storeSection, if_pos hk, if_pos rfl, sectionsGet_insert_self]
      · rw [storeSection, if_pos hk, if_neg (by simp [hke]),
          sectionsGet_insert_ne key k _ d (fun hc => hke hc.symm)]

theorem buildSectionsAux_get (key : Line) (hkey : key ≠ []) (ls : List Line) :
    ∀ (cur : Option Line) (acc : List Line) (d : List (Line × List Char)),
    (∀ r, lastSection key ls = some r →
      sectionsGet key (buildSectionsAux cur acc d ls) = some r) ∧
    (lastSection key ls = none →
      sectionsGet key (buildSectionsAux cur acc d ls) =
        if cur = some key then
          some (joinLines (acc ++ ls.takeWhile fun l => (headingMatch l).isNone))
        else sectionsGet key d) := by
  induction ls with
  | nil =>
    intro cur acc d
    constructor
    · intro r hr
      rw [lastSection] at hr
      exact Option.noConfusion hr
    · intro _
      rw [buildSectionsAux, sectionsGet_store key hkey]
      simp
  | cons l ls ih =>
    intro cur acc d
    have hbuild : buildSectionsAux cur acc d (l :: ls) =
        match headingMatch l with
        | some (_, t) => buildSectionsAux (some t) [] (storeSection cur acc d) ls
        | none => buildSectionsAux cur (acc ++ [l]) d ls := rfl
    have hlastc : lastSection key (l :: ls) =
        match lastSection key ls with
        | some r => some r
        | none =>
          match headingMatch l with
          | some (_, t) => if t = key then some (sectionBody ls) else none
          | none => none := rfl
    cases hm : headingMatch l with
    | some pt =>
      obtain ⟨p, t⟩ := pt
      rw [hm] at hbuild hlastc
      simp only at hbuild hlastc
      rw [hbuild]
      constructor
      · intro r hr
        rw [hlastc] at hr
        cases hlast : lastSection key ls with
        | some r2 =>
          rw [hlast] at hr
          obtain rfl : r2 = r := Option.some.inj hr
          exact (ih (some t) [] (storeSection cur acc d)).1 r2 hlast
        | none =>
          rw [hlast] at hr
          simp only at hr
          rw [(ih (some t) [] (storeSection cur acc d)).2 hlast]
          by_cases ht : t = key
          · rw [if_pos (by rw [ht]), List.nil_append]
            rw [if_pos ht] at hr
            rw [← hr, sectionBody]
          · rw [if_neg ht] at hr
            exact Option.noConfusion hr
      · intro hr
        rw [hlastc] at hr
        cases hlast : lastSection key ls with
        | some r2 =>
          rw [hlast] at hr
          simp only at hr
          exact Option.noConfusion hr
        | none =>
          rw [hlast] at hr
          simp only at hr
          by_cases ht : t = key
          · rw [if_pos ht] at hr
            exact Option.noConfusion hr
          · rw [(ih (some t) [] (storeSection cur acc d)).2 hlast,
              if_neg (by simp [ht]), sectionsGet_store key hkey,
              List.takeWhile_cons_of_neg (by simp [hm])]
            simp
    | none =>
      rw [hm] at hbuild hlastc
      simp only at hbuild hlastc
      rw [hbuild]
      constructor
      · intro r hr
        rw [hlastc] at hr
        cases hlast : lastSection key ls with
        | some r2 =>
          rw [hlast] at hr
          obtain rfl : r2 = r := Option.some.inj hr
          exact (ih cur (acc ++ [l]) d).1 r2 hlast
        | none =>
          rw [hlast] at hr
          simp only at hr
          exact Option.noConfusion hr
      · intro hr
        rw [hlastc] at hr
        cases hlast : lastSection key ls with
        | some r2 =>
          rw [hlast] at hr
          simp only at hr
          exact Option.noConfusion hr
        | none =>
          rw [(ih cur (acc ++ [l]) d).2 hlast,
            List.takeWhile_cons_of_pos (by simp [hm])]
          simp

/-- C10 counterexample: a heading line whose text trims to the empty string
(`"*  "`) is tracked as the current heading but never stored (`if
current_heading:` is falsy on the empty string), so for duplicated *empty*
trimmed texts the index maps that text to nothing, not to the last body. -/
theorem C10_counterexample :
    sectionsGet []
        (buildSections (splitLines ("*  \nbody1\n*  \nbody2").toList)) = none ∧
    lastSection [] (splitLines ("*  \nbody1\n*  \nbody2").toList) =
      some ("body2").toList := by
  refine ⟨by decide, by decide⟩

/-- C10 (amended): for every **non-empty** trimmed heading text, the
`content_sections` index — built by one top-down scan that attributes each
non-heading line to the most recent heading and keys by the heading's trimmed
text, status keyword included — returns exactly the body following the
**last** heading line with that text, so duplicated heading texts are
shadowed and timestamp extraction reads the last occurrence's body. -/
theorem C10_sections_last_occurrence (lines : List Line) (key : Line)
    (hkey : key ≠ []) :
    sectionsGet key (buildSections lines) = lastSection key lines := by
  cases hlast : lastSection key lines with
  | some r =>
    rw [buildSections, (buildSectionsAux_get key hkey lines none [] []).1 r hlast]
  | none =>
    rw [buildSections, (buildSectionsAux_get key hkey lines none [] []).2 hlast,
      if_neg (by simp), sectionsGet]

/-- Witness for C10: a file with two `H` headings; the index returns the body
of the second. -/
theorem C10_sections_last_occurrence_witness :
    sectionsGet ("H").toList
        (buildSections (splitLines ("* H\nfirst\n* H\nsecond").toList)) =
      lastSection ("H").toList (splitLines ("* H\nfirst\n* H\nsecond").toList) ∧
    sectionsGet ("H").toList
        (buildSections (splitLines ("* H\nfirst\n* H\nsecond").toList)) =
      some ("second").toList :=
  ⟨C10_sections_last_occurrence (splitLines ("* H\nfirst\n* H\nsecond").toList)
    ("H").toList (by decide), by decide⟩

/-! ### The notification threshold ladder -/

/-- C2 counterexample: at exactly `total_minutes = 120` the code still
selects the `2h` bucket (`90 <= total_minutes <= 120` is inclusive), whereas
the claim's interval `[90,120)` excludes 120 and asserts no bucket there. -/
theorem C2_counterexample : scheduleBucket 120 = some ("_2h").toList ∧
    ¬ ((90 : ℚ) ≤ 120 ∧ (120 : ℚ) < 120) := by
  constructor
  · rw [scheduleBucket, if_pos (by norm_num)]
  · rintro ⟨-, h⟩
    exact absurd h (by norm_num)

set_option maxHeartbeats 1000000 in
/-- C2 (amended): the schedule ladder selects `2h` iff `total_minutes` lies
in **[90,120]** (the upper bound is inclusive), `90m` iff in [60,90), `1h`
iff in [45,60), `45m` iff in [30,45), `30m` iff in [15,30), `15m` iff in
[0,15), and nothing outside `[0,120]`; hence the buckets are mutually
exclusive and exactly one is selected on `[0,120]`.  The deadline watch
selects `today` iff `total_hours` lies in [6,8]. -/
theorem C2_bucket_ladder (m hrs : ℚ) :
    (scheduleBucket m = some ("_2h").toList ↔ 90 ≤ m ∧ m ≤ 120) ∧
    (scheduleBucket m = some ("_90m").toList ↔ 60 ≤ m ∧ m < 90) ∧
    (scheduleBucket m = some ("_1h").toList ↔ 45 ≤ m ∧ m < 60) ∧
    (scheduleBucket m = some ("_45m").toList ↔ 30 ≤ m ∧ m < 45) ∧
    (scheduleBucket m = some ("_30m").toList ↔ 15 ≤ m ∧ m < 30) ∧
    (scheduleBucket m = some ("_15m").toList ↔ 0 ≤ m ∧ m < 15) ∧
    (scheduleBucket m = none ↔ m < 0 ∨ 120 < m) ∧
    (deadlineBucket hrs = some ("_today").toList ↔ 6 ≤ hrs ∧ hrs ≤ 8) := by
  have hval : ∀ k : Option (List Char), scheduleBucket m = k →
      (90 ≤ m ∧ m ≤ 120 → k = some ("_2h").toList) ∧
      (60 ≤ m ∧ m < 90 → k = some ("_90m").toList) ∧
      (45 ≤ m ∧ m < 60 → k = some ("_1h").toList) ∧
      (30 ≤ m ∧ m < 45 → k = some ("_45m").toList) ∧
      (15 ≤ m ∧ m < 30 → k = some ("_30m").toList) ∧
      (0 ≤ m ∧ m < 15 → k = some ("_15m").toList) ∧
      (m < 0 ∨ 120 < m → k = none) := by
    intro k hk
    subst hk
    refine ⟨?_, ?_, ?_, ?_, ?_, ?_, ?_⟩
    · rintro ⟨ha, hb⟩
      rw [scheduleBucket, if_pos ⟨ha, hb⟩]
    · rintro ⟨ha, hb⟩
      rw [scheduleBucket, if_neg (by rintro ⟨hc, -⟩; linarith),
        if_pos ⟨ha, hb⟩]
    · rintro ⟨ha, hb⟩
      rw [scheduleBucket, if_neg (by rintro ⟨hc, -⟩; linarith),
        if_neg (by rintro ⟨hc, -⟩; linarith), if_pos ⟨ha, hb⟩]
    · rintro ⟨ha, hb⟩
      rw [scheduleBucket, if_neg (by rintro ⟨hc, -⟩; linarith),
        if_neg (by rintro ⟨hc, -⟩; linarith),
        if_neg (by rintro ⟨hc, -⟩; linarith), if_pos ⟨ha, hb⟩]
    · rintro ⟨ha, hb⟩
      rw [scheduleBucket, if_neg (by rintro ⟨hc, -⟩; linarith),
        if_neg (by rintro ⟨hc, -⟩; linarith),
        if_neg (by rintro ⟨hc, -⟩; linarith),
        if_neg (by rintro ⟨hc, -⟩; linarith), if_pos ⟨ha, hb⟩]
    · rintro ⟨ha, hb⟩
      rw [scheduleBucket, if_neg (by rintro ⟨hc, -⟩; linarith),
        if_neg (by rintro ⟨hc, -⟩; linarith),
        if_neg (by rintro ⟨hc, -⟩; linarith),
        if_neg (by rintro ⟨hc, -⟩; linarith),
        if_neg (by rintro ⟨hc, -⟩; linarith), if_pos ⟨ha, hb⟩]
    · rintro (ha | ha) <;>
        rw [scheduleBucket, if_neg (by rintro ⟨hc, hd⟩; linarith),
          if_neg (by rintro ⟨hc, hd⟩; linarith),
          if_neg (by rintro ⟨hc, hd⟩; linarith),
          if_neg (by rintro ⟨hc, hd⟩; linarith),
          if_neg (by rintro ⟨hc, hd⟩; linarith),
          if_neg (by rintro ⟨hc, hd⟩; linarith)]
  obtain ⟨hv1, hv2, hv3, hv4, hv5, hv6, hv7⟩ := hval (scheduleBucket m) rfl
  have hcover : 90 ≤ m ∧ m ≤ 120 ∨ 60 ≤ m ∧ m < 90 ∨ 45 ≤ m ∧ m < 60 ∨
      30 ≤ m ∧ m < 45 ∨ 15 ≤ m ∧ m < 30 ∨ 0 ≤ m ∧ m < 15 ∨
      (m < 0 ∨ 120 < m) := by
    rcases lt_or_le m 0 with h0 | h0
    · exact Or.inr (Or.inr (Or.inr (Or.inr (Or.inr (Or.inr (Or.inl h0))))))
    rcases lt_or_le m 15 with h15 | h15
    · exact Or.inr (Or.inr (Or.inr (Or.inr (Or.inr (Or.inl ⟨h0, h15⟩)))))
    rcases lt_or_le m 30 with h30 | h30
    · exact Or.inr (Or.inr (Or.inr (Or.inr (Or.inl ⟨h15, h30⟩))))
    rcases lt_or_le m 45 with h45 | h45
    · exact Or.inr (Or.inr (Or.inr (Or.inl ⟨h30, h45⟩)))
    rcases lt_or_le m 60 with h60 | h60
    · exact Or.inr (Or.inr (Or.inl ⟨h45, h60⟩))
    rcases lt_or_le m 90 with h90 | h90
    · exact Or.inr (Or.inl ⟨h60, h90⟩)
    rcases le_or_lt m 120 with h120 | h120
    · exact Or.inl ⟨h90, h120⟩
    · exact Or.inr (Or.inr (Or.inr (Or.inr (Or.inr (Or.inr (Or.inr h120))))))
  have hdistinct : ∀ x y : Option (List Char),
      scheduleBucket m = x → scheduleBucket m = y → x = y := by
    intro x y hx hy
    rw [← hx, ← hy]
  refine ⟨⟨?_, hv1⟩, ⟨?_, hv2⟩, ⟨?_, hv3⟩, ⟨?_, hv4⟩, ⟨?_, hv5⟩, ⟨?_, hv6⟩,
    ⟨?_, hv7⟩, ?_⟩
  · intro h
    rcases hcover with hc | hc | hc | hc | hc | hc | hc
    · exact hc
    all_goals first
      | (exact absurd (h.symm.trans (hv2 hc)) (by decide))
      | (exact absurd (h.symm.trans (hv3 hc)) (by decide))
      | (exact absurd (h.symm.trans (hv4 hc)) (by decide))
      | (exact absurd (h.symm.trans (hv5 hc)) (by decide))
      | (exact absurd (h.symm.trans (hv6 hc)) (by decide))
      | (exact absurd (h.symm.trans (hv7 hc)) (by decide))
  · intro h
    rcases hcover with hc | hc | hc | hc | hc | hc | hc
    · exact absurd (h.symm.trans (hv1 hc)) (by decide)
    · exact hc
    all_goals first
      | (exact absurd (h.symm.trans (hv3 hc)) (by decide))
      | (exact absurd (h.symm.trans (hv4 hc)) (by decide))
      | (exact absurd (h.symm.trans (hv5 hc)) (by decide))
      | (exact absurd (h.symm.trans (hv6 hc)) (by decide))
      | (exact absurd (h.symm.trans (hv7 hc)) (by decide))
  · intro h
    rcases hcover with hc | hc | hc | hc | hc | hc | hc
    · exact absurd (h.symm.trans (hv1 hc)) (by decide)
    · exact absurd (h.symm.trans (hv2 hc)) (by decide)
    · exact hc
    all_goals first
      | (exact absurd (h.symm.trans (hv4 hc)) (by decide))
      | (exact absurd (h.symm.trans (hv5 hc)) (by decide))
      | (exact absurd (h.symm.trans (hv6 hc)) (by decide))
      | (exact absurd (h.symm.trans (hv7 hc)) (by decide))
  · intro h
    rcases hcover with hc | hc | hc | hc | hc | hc | hc
    · exact absurd (h.symm.trans (hv1 hc)) (by decide)
    · exact absurd (h.symm.trans (hv2 hc)) (by decide)
    · exact absurd (h.symm.trans (hv3 hc)) (by decide)
    · exact hc
    all_goals first
      | (exact absurd (h.symm.trans (hv5 hc)) (by decide))
      | (exact absurd (h.symm.trans (hv6 hc)) (by decide))
      | (exact absurd (h.symm.trans (hv7 hc)) (by decide))
  · intro h
    rcases hcover with hc | hc | hc | hc | hc | hc | hc
    · exact absurd (h.symm.trans (hv1 hc)) (by decide)
    · exact absurd (h.symm.trans (hv2 hc)) (by decide)
    · exact absurd (h.symm.trans (hv3 hc)) (by decide)
    · exact absurd (h.symm.trans (hv4 hc)) (by decide)
    · exact hc
    all_goals first
      | (exact absurd (h.symm.trans (hv6 hc)) (by decide))
      | (exact absurd (h.symm.trans (hv7 hc)) (by decide))
  · intro h
    rcases hcover with hc | hc | hc | hc | hc | hc | hc
    · exact absurd (h.symm.trans (hv1 hc)) (by decide)
    · exact absurd (h.symm.trans (hv2 hc)) (by decide)
    · exact absurd (h.symm.trans (hv3 hc)) (by decide)
    · exact absurd (h.symm.trans (hv4 hc)) (by decide)
    · exact absurd (h.symm.trans (hv5 hc)) (by decide)
    · exact hc
    · exact absurd (h.symm.trans (hv7 hc)) (by decide)
  · intro h
    rcases hcover with hc | hc | hc | hc | hc | hc | hc
    · exact absurd (h.symm.trans (hv1 hc)) (by decide)
    · exact absurd (h.symm.trans (hv2 hc)) (by decide)
    · exact absurd (h.symm.trans (hv3 hc)) (by decide)
    · exact absurd (h.symm.trans (hv4 hc)) (by decide)
    · exact absurd (h.symm.trans (hv5 hc)) (by decide)
    · exact absurd (h.symm.trans (hv6 hc)) (by decide)
    · exact hc
  · constructor
    · intro h
      by_contra hc
      rw [not_and_or, not_le, not_le] at hc
      rcases hc with hc | hc <;>
        rw [deadlineBucket, if_neg (by rintro ⟨ha, hb⟩; linarith)] at h <;>
        exact Option.noConfusion h
    · rintro ⟨ha, hb⟩
      rw [deadlineBucket, if_pos ⟨ha, hb⟩]

/-- Witness for C2 at concrete inputs. -/
theorem C2_bucket_ladder_witness :
    scheduleBucket 100 = some ("_2h").toList ∧
    deadlineBucket 7 = some ("_today").toList :=
  ⟨(C2_bucket_ladder 100 7).1.mpr ⟨by norm_num, by norm_num⟩,
   (C2_bucket_ladder 100 7).2.2.2.2.2.2.2.mpr ⟨by norm_num, by norm_num⟩⟩

/-! ### Notification deduplication (C3) and the broadcast loop (C5) -/

theorem notifStep_spec (sent : List (List Char)) (e : NotifEvent) :
    (∀ k ∈ sent, k ∈ (notifStep sent e).1) ∧
    (∀ k ∈ (notifStep sent e).2, k ∉ sent ∧ k ∈ (notifStep sent e).1) ∧
    (notifStep sent e).2.Nodup := by
  cases e with
  | sched item iso m =>
    rw [notifStep, check_schedule_notifications]
    cases scheduleBucket m with
    | none => exact ⟨fun k hk => hk, fun k hk => absurd hk (by simp), by simp⟩
    | some suf =>
      dsimp only
      by_cases hmem : (("schedule_").toList ++ item.fileName ++ '_' :: item.title ++
          '_' :: iso) ++ suf ∈ sent
      · rw [if_pos hmem]
        exact ⟨fun k hk => hk, fun k hk => absurd hk (by simp), by simp⟩
      · rw [if_neg hmem]
        refine ⟨fun k hk => List.mem_cons.mpr (Or.inr hk), ?_, by simp⟩
        intro k hk
        rcases List.mem_singleton.mp hk with rfl
        exact ⟨hmem, List.mem_cons_self _ _⟩
  | dead item iso hrs =>
    rw [notifStep, check_deadline_notifications]
    cases deadlineBucket hrs with
    | none => exact ⟨fun k hk => hk, fun k hk => absurd hk (by simp), by simp⟩
    | some suf =>
      dsimp only
      by_cases hmem : (("deadline_").toList ++ item.fileName ++ '_' :: item.title ++
          '_' :: iso) ++ suf ∈ sent
      · rw [if_pos hmem]
        exact ⟨fun k hk => hk, fun k hk => absurd hk (by simp), by simp⟩
      · rw [if_neg hmem]
        refine ⟨fun k hk => List.mem_cons.mpr (Or.inr hk), ?_, by simp⟩
        intro k hk
        rcases List.mem_singleton.mp hk with rfl
        exact ⟨hmem, List.mem_cons_self _ _⟩

theorem runNotifications_spec (evs : List NotifEvent) :
    ∀ sent : List (List Char),
    (∀ k ∈ sent, k ∈ (runNotifications evs sent).1 ∧
      k ∉ (runNotifications evs sent).2) ∧
    (runNotifications evs sent).2.Nodup := by
  induction evs with
  | nil =>
    intro sent
    exact ⟨fun k hk => ⟨hk, by simp [runNotifications]⟩, by simp [runNotifications]⟩
  | cons e evs ih =>
    intro sent
    obtain ⟨hstep1, hstep2, hstep3⟩ := notifStep_spec sent e
    obtain ⟨hrun1, hrun2⟩ := ih (notifStep sent e).1
    constructor
    · intro k hk
      refine ⟨(hrun1 k (hstep1 k hk)).1, ?_⟩
      rw [runNotifications]
      intro hmem
      rcases List.mem_append.mp hmem with hmem | hmem
      · exact (hstep2 k hmem).1 hk
      · exact (hrun1 k (hstep1 k hk)).2 hmem
    · rw [runNotifications]
      refine List.Nodup.append hstep3 hrun2 ?_
      intro k hk1 hk2
      exact (hrun1 k (hstep2 k hk1).2).2 hk2

/-- C3: once an (item, bucket) dedup key is in `sent_notifications`, no later
sequence of threshold checks in the same process broadcasts it again, and
within any run each key is broadcast at most once — at most one send per item
per bucket per process lifetime. -/
theorem C3_dedup_at_most_once (sent : List (List Char)) (evs : List NotifEvent)
    (k : List Char) (hk : k ∈ sent) :
    k ∉ (runNotifications evs sent).2 ∧ (runNotifications evs sent).2.Nodup :=
  ⟨((runNotifications_spec evs sent).1 k hk).2, (runNotifications_spec evs sent).2⟩

/-- Witness for C3: the `30m` key was recorded; re-running the watch with the
same bucket a minute later broadcasts nothing. -/
theorem C3_dedup_at_most_once_witness :
    ("k").toList ∈ [("k").toList] ∧
    ("k").toList ∉ (runNotifications
      [NotifEvent.sched ⟨("f").toList, ("t").toList, ("ft").toList⟩ ("i").toList 20]
      [("k").toList]).2 :=
  ⟨by decide,
   (C3_dedup_at_most_once [("k").toList]
      [NotifEvent.sched ⟨("f").toList, ("t").toList, ("ft").toList⟩ ("i").toList 20]
      ("k").toList (by decide)).1⟩

/-- C5 (the code as written): the `try`/`except` wraps the whole subscriber
loop, so the first failing send aborts the loop and the remaining subscribers
receive no attempt.  At the concrete failing input `subscribers = [a, b]`
with the send to `a` raising, only `a` gets an attempt and `b` is dropped —
contradicting the claim that a failure for one subscriber leaves the others
unaffected. -/
theorem C5_send_failure_drops_rest :
    send_notification_to_subscribers [("a").toList, ("b").toList]
        (fun s => !(s = ("a").toList)) = [("a").toList] ∧
    ("b").toList ∉ send_notification_to_subscribers [("a").toList, ("b").toList]
        (fun s => !(s = ("a").toList)) := by
  refine ⟨by decide, by decide⟩

/-! ### The two agenda-extraction variants (C4) -/

/-- C4 counterexample: for the file `x_task.org` (a `_task` substring but no
`__`-delimited `task` filetag) with one heading scheduled today, both
variants put the item in `schedules_today`, but with different
`is_task_file` attributes (`True` in the full variant's substring test,
`False` under `has_task_filetag`), so the buckets are not identical. -/
theorem C4_counterexample :
    (parse_org_agenda_items c4Today [c4File]).schedulesToday ≠
      (parse_org_agenda_items_task_only c4Today [c4File]).schedulesToday ∧
    (parse_org_agenda_items c4Today [c4File]).schedulesToday.map
        (fun i => i.isTaskFile) = [true] ∧
    (parse_org_agenda_items_task_only c4Today [c4File]).schedulesToday.map
        (fun i => i.isTaskFile) = [false] := by
  refine ⟨by decide, by decide, by decide⟩

theorem todoPfx_sched (name orig : Line) :
    ("todo:").toList.isPrefixOf (("schedule:").toList ++ name ++ ':' :: orig) =
      false := rfl

theorem todoPfx_dead (name orig : Line) :
    ("todo:").toList.isPrefixOf (("deadline:").toList ++ name ++ ':' :: orig) =
      false := rfl

theorem todoPfx_todo (name rest : List Char) :
    ("todo:").toList.isPrefixOf (("todo:").toList ++ name ++ rest) = true :=
  List.isPrefixOf_iff_prefix.mpr ⟨name ++ rest, by simp⟩

theorem addTodoItem_processed (k : List Char) (item : Item) (st : AgendaState) :
    (addTodoItem k item st).processed = st.processed := by
  rw [addTodoItem]
  split_ifs <;> rfl

theorem mem_removeTodoIds {id : List Char} {l : List (List Char)}
    (hid : ("todo:").toList.isPrefixOf id = false) :
    id ∈ removeTodoIds l ↔ id ∈ l := by
  have hp : (!(("todo:").toList.isPrefixOf id)) = true := by
    rw [Bool.not_eq_true', hid]
  rw [removeTodoIds, List.mem_filter]
  exact ⟨fun h => h.1, fun h => ⟨h, hp⟩⟩

theorem removeTodoIds_cons_keep {id : List Char} (l : List (List Char))
    (hid : ("todo:").toList.isPrefixOf id = false) :
    removeTodoIds (id :: l) = id :: removeTodoIds l := by
  rw [removeTodoIds, removeTodoIds, List.filter_cons,
    if_pos (by rw [Bool.not_eq_true', hid])]

theorem removeTodoIds_cons_drop {id : List Char} (l : List (List Char))
    (hid : ("todo:").toList.isPrefixOf id = true) :
    removeTodoIds (id :: l) = removeTodoIds l := by
  rw [removeTodoIds, removeTodoIds, List.filter_cons,
    if_neg (by rw [Bool.not_eq_true', hid]; decide)]

theorem schedStep_rel (today : Date) (name orig : Line) (itemF itemT : Item)
    (sched : Option Date) (stF stT : AgendaState)
    (hp : stF.processed = stT.processed) (hrel : BucketsRel stF stT)
    (he : eraseTaskFlag itemF = eraseTaskFlag itemT) :
    (schedStep today name orig itemF sched stF).processed =
      (schedStep today name orig itemT sched stT).processed ∧
    BucketsRel (schedStep today name orig itemF sched stF)
      (schedStep today name orig itemT sched stT) := by
  rw [schedStep, schedStep]
  by_cases hs : sched = some today
  · rw [if_pos hs, if_pos hs]
    dsimp only
    rw [hp]
    by_cases hm : ("schedule:").toList ++ name ++ ':' :: orig ∈ stT.processed
    · rw [if_pos hm, if_pos hm]
      exact ⟨hp, hrel⟩
    · rw [if_neg hm, if_neg hm]
      obtain ⟨h1, h2, h3, h4, h5, h6⟩ := hrel
      exact ⟨rfl,
        ⟨by simp only [List.map_append, h1, he, List.map_cons, List.map_nil],
          h2, h3, h4, h5, h6⟩⟩
  · rw [if_neg hs, if_neg hs]
    exact ⟨hp, hrel⟩

theorem schedStep_rel_rm (today : Date) (name orig : Line) (itemF itemT : Item)
    (sched : Option Date) (stF stT : AgendaState)
    (hp : stT.processed = removeTodoIds stF.processed) (hrel : BucketsRel stF stT)
    (he : eraseTaskFlag itemF = eraseTaskFlag itemT) :
    (schedStep today name orig itemT sched stT).processed =
      removeTodoIds (schedStep today name orig itemF sched stF).processed ∧
    BucketsRel (schedStep today name orig itemF sched stF)
      (schedStep today name orig itemT sched stT) := by
  rw [schedStep, schedStep]
  by_cases hs : sched = some today
  · rw [if_pos hs, if_pos hs]
    dsimp only
    have hmemiff : ("schedule:").toList ++ name ++ ':' :: orig ∈ stT.processed ↔
        ("schedule:").toList ++ name ++ ':' :: orig ∈ stF.processed := by
      rw [hp, mem_removeTodoIds (todoPfx_sched name orig)]
    by_cases hm : ("schedule:").toList ++ name ++ ':' :: orig ∈ stF.processed
    · rw [if_pos hm, if_pos (hmemiff.mpr hm)]
      exact ⟨hp, hrel⟩
    · rw [if_neg hm, if_neg (fun hc => hm (hmemiff.mp hc))]
      obtain ⟨h1, h2, h3, h4, h5, h6⟩ := hrel
      refine ⟨?_, ⟨by simp only [List.map_append, h1, he, List.map_cons,
        List.map_nil], h2, h3, h4, h5, h6⟩⟩
      dsimp only
      rw [removeTodoIds_cons_keep _ (todoPfx_sched name orig), hp]
  · rw [if_neg hs, if_neg hs]
    exact ⟨hp, hrel⟩

theorem deadStep_rel (today : Date) (name orig : Line) (itemF itemT : Item)
    (dl : Option Date) (stF stT : AgendaState)
    (hp : stF.processed = stT.processed) (hrel : BucketsRel stF stT)
    (he : eraseTaskFlag itemF = eraseTaskFlag itemT) :
    (deadStep today name orig itemF dl stF).processed =
      (deadStep today name orig itemT dl stT).processed ∧
    BucketsRel (deadStep today name orig itemF dl stF)
      (deadStep today name orig itemT dl stT) := by
  rw [deadStep, deadStep]
  by_cases hs : dl = some today
  · rw [if_pos hs, if_pos hs]
    dsimp only
    rw [hp]
    by_cases hm : ("deadline:").toList ++ name ++ ':' :: orig ∈ stT.processed
    · rw [if_pos hm, if_pos hm]
      exact ⟨hp, hrel⟩
    · rw [if_neg hm, if_neg hm]
      obtain ⟨h1, h2, h3, h4, h5, h6⟩ := hrel
      exact ⟨rfl,
        ⟨h1, by simp only [List.map_append, h2, he, List.map_cons, List.map_nil],
          h3, h4, h5, h6⟩⟩
  · rw [if_neg hs, if_neg hs]
    exact ⟨hp, hrel⟩

theorem deadStep_rel_rm (today : Date) (name orig : Line) (itemF itemT : Item)
    (dl : Option Date) (stF stT : AgendaState)
    (hp : stT.processed = removeTodoIds stF.processed) (hrel : BucketsRel stF stT)
    (he : eraseTaskFlag itemF = eraseTaskFlag itemT) :
    (deadStep today name orig itemT dl stT).processed =
      removeTodoIds (deadStep today name orig itemF dl stF).processed ∧
    BucketsRel (deadStep today name orig itemF dl stF)
      (deadStep today name orig itemT dl stT) := by
  rw [deadStep, deadStep]
  by_cases hs : dl = some today
  · rw [if_pos hs, if_pos hs]
    dsimp only
    have hmemiff : ("deadline:").toList ++ name ++ ':' :: orig ∈ stT.processed ↔
        ("deadline:").toList ++ name ++ ':' :: orig ∈ stF.processed := by
      rw [hp, mem_removeTodoIds (todoPfx_dead name orig)]
    by_cases hm : ("deadline:").toList ++ name ++ ':' :: orig ∈ stF.processed
    · rw [if_pos hm, if_pos (hmemiff.mpr hm)]
      exact ⟨hp, hrel⟩
    · rw [if_neg hm, if_neg (fun hc => hm (hmemiff.mp hc))]
      obtain ⟨h1, h2, h3, h4, h5, h6⟩ := hrel
      refine ⟨?_, ⟨h1, by simp only [List.map_append, h2, he, List.map_cons,
        List.map_nil], h3, h4, h5, h6⟩⟩
      dsimp only
      rw [removeTodoIds_cons_keep _ (todoPfx_dead name orig), hp]
  · rw [if_neg hs, if_neg hs]
    exact ⟨hp, hrel⟩

theorem addTodoItem_rel (k : List Char) (itemF itemT : Item)
    (stF stT : AgendaState) (hp : stF.processed = stT.processed)
    (hrel : BucketsRel stF stT)
    (he : eraseTaskFlag itemF = eraseTaskFlag itemT)
    (htask : has_task_filetag itemF.fileName = true) :
    (addTodoItem k itemF stF).processed = (addTodoItem k itemT stT).processed ∧
    BucketsRel (addTodoItem k itemF stF) (addTodoItem k itemT stT) := by
  obtain ⟨h1, h2, h3, h4, h5, h6⟩ := hrel
  rw [addTodoItem, addTodoItem]
  split_ifs with hA hN hT hW
  · exact ⟨hp, ⟨h1, h2, by simp [List.filter_append, List.map_append, h3,
      List.filter_cons, htask, he], h4, h5, h6⟩⟩
  · exact ⟨hp, ⟨h1, h2, h3, by simp [List.filter_append, List.map_append, h4,
      List.filter_cons, htask, he], h5, h6⟩⟩
  · exact ⟨hp, ⟨h1, h2, h3, h4, by simp [List.filter_append, List.map_append,
      h5, List.filter_cons, htask, he], h6⟩⟩
  · exact ⟨hp, ⟨h1, h2, h3, h4, h5, by simp [List.filter_append,
      List.map_append, h6, List.filter_cons, htask, he]⟩⟩
  · exact ⟨hp, ⟨h1, h2, h3, h4, h5, h6⟩⟩

theorem todoStep_rel_true (name : Line) (kw : Option (List Char)) (orig : Line)
    (itemF itemT : Item) (stF stT : AgendaState)
    (hp : stF.processed = stT.processed) (hrel : BucketsRel stF stT)
    (he : eraseTaskFlag itemF = eraseTaskFlag itemT)
    (htask : has_task_filetag itemF.fileName = true) :
    (todoStepFull name kw orig itemF stF).processed =
      (todoStepTask true name kw orig itemT stT).processed ∧
    BucketsRel (todoStepFull name kw orig itemF stF)
      (todoStepTask true name kw orig itemT stT) := by
  cases kw with
  | none => exact ⟨hp, hrel⟩
  | some k =>
    dsimp only [todoStepFull, todoStepTask]
    by_cases hkw : k ∈ todoWords
    · have hguard : k ∈ todoWords ∧ true = true := ⟨hkw, rfl⟩
      rw [if_pos hkw, if_pos hguard, hp]
      by_cases hm : ("todo:").toList ++ name ++ ':' :: (k ++ ':' :: orig) ∈
          stT.processed
      · rw [if_pos hm, if_pos hm]
        exact ⟨hp, hrel⟩
      · rw [if_neg hm, if_neg hm]
        exact addTodoItem_rel k itemF itemT _ _ rfl hrel he htask
    · rw [if_neg hkw, if_neg (fun hc => hkw hc.1)]
      exact ⟨hp, hrel⟩

theorem todoStep_rel_false (name : Line) (kw : Option (List Char)) (orig : Line)
    (itemF itemT : Item) (stF stT : AgendaState)
    (hp : stT.processed = removeTodoIds stF.processed) (hrel : BucketsRel stF stT)
    (hno : has_task_filetag itemF.fileName = false) :
    (todoStepTask false name kw orig itemT stT).processed =
      removeTodoIds (todoStepFull name kw orig itemF stF).processed ∧
    BucketsRel (todoStepFull name kw orig itemF stF)
      (todoStepTask false name kw orig itemT stT) := by
  cases kw with
  | none => exact ⟨hp, hrel⟩
  | some k =>
    dsimp only [todoStepFull, todoStepTask]
    rw [if_neg (fun hc => Bool.noConfusion hc.2)]
    by_cases hkw : k ∈ todoWords
    · rw [if_pos hkw]
      by_cases hm : ("todo:").toList ++ name ++ ':' :: (k ++ ':' :: orig) ∈
          stF.processed
      · rw [if_pos hm]
        exact ⟨hp, hrel⟩
      · rw [if_neg hm]
        obtain ⟨h1, h2, h3, h4, h5, h6⟩ := hrel
        constructor
        · rw [addTodoItem_processed]
          dsimp only
          rw [removeTodoIds_cons_drop _ (todoPfx_todo name (':' :: (k ++ ':' :: orig))),
            hp]
        · have hfilter : ∀ l : List Item,
              ((l ++ [itemF]).filter fun i => has_task_filetag i.fileName) =
                l.filter fun i => has_task_filetag i.fileName := by
            intro l
            rw [List.filter_append, List.filter_cons, if_neg (by rw [hno]; decide),
              List.filter_nil, List.append_nil]
          rw [addTodoItem]
          split_ifs
          · exact ⟨h1, h2, by rw [hfilter]; exact h3, h4, h5, h6⟩
          · exact ⟨h1, h2, h3, by rw [hfilter]; exact h4, h5, h6⟩
          · exact ⟨h1, h2, h3, h4, by rw [hfilter]; exact h5, h6⟩
          · exact ⟨h1, h2, h3, h4, h5, by rw [hfilter]; exact h6⟩
          · exact ⟨h1, h2, h3, h4, h5, h6⟩
    · rw [if_neg hkw]
      exact ⟨hp, hrel⟩

theorem processNode_rel_true (name ftitle : Line)
    (sections : List (Line × List Char)) (hT : has_task_filetag name = true)
    (today : Date) (h : List Char) (td : Option (List Char))
    (tg : List (List Char)) (pr : Option (List Char)) (stF stT : AgendaState)
    (hp : stF.processed = stT.processed) (hrel : BucketsRel stF stT) :
    (processNodeFull ⟨name, ftitle, fullTaskTest name, sections⟩
        today h td tg pr stF).processed =
      (processNodeTask ⟨name, ftitle, has_task_filetag name, sections⟩
        today h td tg pr stT).processed ∧
    BucketsRel
      (processNodeFull ⟨name, ftitle, fullTaskTest name, sections⟩
        today h td tg pr stF)
      (processNodeTask ⟨name, ftitle, has_task_filetag name, sections⟩
        today h td tg pr stT) := by
  dsimp only [processNodeFull, processNodeTask]
  by_cases hh : h = []
  · rw [if_pos hh, if_pos hh]
    exact ⟨hp, hrel⟩
  · rw [if_neg hh, if_neg hh, hT]
    set p := nodeKeywordHeading td h with hpdef
    set hcv := headingContentLookup sections p.2 h with hhc
    set ts := parse_timestamps_in_content hcv with hts
    set itemF := (⟨p.2, name, ftitle, p.1, tg, pr, ts.1, ts.2, fullTaskTest name⟩ : Item) with hitemF
    set itemT := (⟨p.2, name, ftitle, p.1, tg, pr, ts.1, ts.2, true⟩ : Item) with hitemT
    have he : eraseTaskFlag itemF = eraseTaskFlag itemT := by
      rw [hitemF, hitemT]
      rfl
    obtain ⟨hp1, hrel1⟩ :=
      schedStep_rel today name p.2 itemF itemT ts.1 stF stT hp hrel he
    obtain ⟨hp2, hrel2⟩ :=
      deadStep_rel today name p.2 itemF itemT ts.2 _ _ hp1 hrel1 he
    exact todoStep_rel_true name p.1 p.2 itemF itemT _ _ hp2 hrel2 he
      (by rw [hitemF]; exact hT)

theorem processNode_rel_false (name ftitle : Line)
    (sections : List (Line × List Char)) (hT : has_task_filetag name = false)
    (today : Date) (h : List Char) (td : Option (List Char))
    (tg : List (List Char)) (pr : Option (List Char)) (stF stT : AgendaState)
    (hp : stT.processed = removeTodoIds stF.processed)
    (hrel : BucketsRel stF stT) :
    (processNodeTask ⟨name, ftitle, has_task_filetag name, sections⟩
        today h td tg pr stT).processed =
      removeTodoIds ((processNodeFull ⟨name, ftitle, fullTaskTest name, sections⟩
        today h td tg pr stF).processed) ∧
    BucketsRel
      (processNodeFull ⟨name, ftitle, fullTaskTest name, sections⟩
        today h td tg pr stF)
      (processNodeTask ⟨name, ftitle, has_task_filetag name, sections⟩
        today h td tg pr stT) := by
  dsimp only [processNodeFull, processNodeTask]
  by_cases hh : h = []
  · rw [if_pos hh, if_pos hh]
    exact ⟨hp, hrel⟩
  · rw [if_neg hh, if_neg hh, hT]
    set p := nodeKeywordHeading td h with hpdef
    set hcv := headingContentLookup sections p.2 h with hhc
    set ts := parse_timestamps_in_content hcv with hts
    set itemF := (⟨p.2, name, ftitle, p.1, tg, pr, ts.1, ts.2, fullTaskTest name⟩ : Item) with hitemF
    set itemT := (⟨p.2, name, ftitle, p.1, tg, pr, ts.1, ts.2, false⟩ : Item) with hitemT
    have he : eraseTaskFlag itemF = eraseTaskFlag itemT := by
      rw [hitemF, hitemT]
      rfl
    obtain ⟨hp1, hrel1⟩ :=
      schedStep_rel_rm today name p.2 itemF itemT ts.1 stF stT hp hrel he
    obtain ⟨hp2, hrel2⟩ :=
      deadStep_rel_rm today name p.2 itemF itemT ts.2 _ _ hp1 hrel1 he
    exact todoStep_rel_false name p.1 p.2 itemF itemT _ _ hp2 hrel2
      (by rw [hitemF]; exact hT)

mutual
theorem walkNode_rel_true (name ftitle : Line)
    (sections : List (Line × List Char)) (hT : has_task_filetag name = true)
    (today : Date) :
    ∀ (n : ONode) (stF stT : AgendaState), stF.processed = stT.processed →
      BucketsRel stF stT →
      (walkNodeFull ⟨name, ftitle, fullTaskTest name, sections⟩
          today n stF).processed =
        (walkNodeTask ⟨name, ftitle, has_task_filetag name, sections⟩
          today n stT).processed ∧
      BucketsRel
        (walkNodeFull ⟨name, ftitle, fullTaskTest name, sections⟩ today n stF)
        (walkNodeTask ⟨name, ftitle, has_task_filetag name, sections⟩ today n stT)
  | ONode.mk h td tg pr ch, stF, stT, hp, hrel => by
    obtain ⟨hp1, hrel1⟩ :=
      processNode_rel_true name ftitle sections hT today h td tg pr stF stT hp hrel
    exact walkForest_rel_true name ftitle sections hT today ch _ _ hp1 hrel1

theorem walkForest_rel_true (name ftitle : Line)
    (sections : List (Line × List Char)) (hT : has_task_filetag name = true)
    (today : Date) :
    ∀ (ns : OForest) (stF stT : AgendaState), stF.processed = stT.processed →
      BucketsRel stF stT →
      (walkForestFull ⟨name, ftitle, fullTaskTest name, sections⟩
          today ns stF).processed =
        (walkForestTask ⟨name, ftitle, has_task_filetag name, sections⟩
          today ns stT).processed ∧
      BucketsRel
        (walkForestFull ⟨name, ftitle, fullTaskTest name, sections⟩ today ns stF)
        (walkForestTask ⟨name, ftitle, has_task_filetag name, sections⟩ today ns stT)
  | OForest.nil, stF, stT, hp, hrel => ⟨hp, hrel⟩
  | OForest.cons n ns, stF, stT, hp, hrel => by
    obtain ⟨hp1, hrel1⟩ :=
      walkNode_rel_true name ftitle sections hT today n stF stT hp hrel
    exact walkForest_rel_true name ftitle sections hT today ns _ _ hp1 hrel1
end

mutual
theorem walkNode_rel_false (name ftitle : Line)
    (sections : List (Line × List Char)) (hT : has_task_filetag name = false)
    (today : Date) :
    ∀ (n : ONode) (stF stT : AgendaState),
      stT.processed = removeTodoIds stF.processed → BucketsRel stF stT →
      (walkNodeTask ⟨name, ftitle, has_task_filetag name, sections⟩
          today n stT).processed =
        removeTodoIds ((walkNodeFull ⟨name, ftitle, fullTaskTest name, sections⟩
          today n stF).processed) ∧
      BucketsRel
        (walkNodeFull ⟨name, ftitle, fullTaskTest name, sections⟩ today n stF)
        (walkNodeTask ⟨name, ftitle, has_task_filetag name, sections⟩ today n stT)
  | ONode.mk h td tg pr ch, stF, stT, hp, hrel => by
    obtain ⟨hp1, hrel1⟩ :=
      processNode_rel_false name ftitle sections hT today h td tg pr stF stT hp hrel
    exact walkForest_rel_false name ftitle sections hT today ch _ _ hp1 hrel1

theorem walkForest_rel_false (name ftitle : Line)
    (sections : List (Line × List Char)) (hT : has_task_filetag name = false)
    (today : Date) :
    ∀ (ns : OForest) (stF stT : AgendaState),
      stT.processed = removeTodoIds stF.processed → BucketsRel stF stT →
      (walkForestTask ⟨name, ftitle, has_task_filetag name, sections⟩
          today ns stT).processed =
        removeTodoIds ((walkForestFull ⟨name, ftitle, fullTaskTest name, sections⟩
          today ns stF).processed) ∧
      BucketsRel
        (walkForestFull ⟨name, ftitle, fullTaskTest name, sections⟩ today ns stF)
        (walkForestTask ⟨name, ftitle, has_task_filetag name, sections⟩ today ns stT)
  | OForest.nil, stF, stT, hp, hrel => ⟨hp, hrel⟩
  | OForest.cons n ns, stF, stT, hp, hrel => by
    obtain ⟨hp1, hrel1⟩ :=
      walkNode_rel_false name ftitle sections hT today n stF stT hp hrel
    exact walkForest_rel_false name ftitle sections hT today ns _ _ hp1 hrel1
end

theorem processFile_rel (today : Date) (f : OrgFile) (stF stT : AgendaState)
    (hrel : BucketsRel stF stT) :
    BucketsRel (processFileFull today stF f) (processFileTask today stT f) := by
  rw [processFileFull, processFileTask]
  by_cases hT : has_task_filetag f.name = true
  · exact (walkForest_rel_true f.name
      (fileTitle f.content (f.name.take (f.name.length - (".org").toList.length)))
      (buildSections (splitLines f.content)) hT today f.forest
      { stF with processed := [] } { stT with processed := [] } rfl hrel).2
  · rw [Bool.not_eq_true] at hT
    exact (walkForest_rel_false f.name
      (fileTitle f.content (f.name.take (f.name.length - (".org").toList.length)))
      (buildSections (splitLines f.content)) hT today f.forest
      { stF with processed := [] } { stT with processed := [] } rfl hrel).2

theorem parse_fold_rel (today : Date) (files : List OrgFile) :
    ∀ stF stT, BucketsRel stF stT →
      BucketsRel (files.foldl (processFileFull today) stF)
        (files.foldl (processFileTask today) stT) := by
  induction files with
  | nil => exact fun stF stT hrel => hrel
  | cons f fs ih =>
    intro stF stT hrel
    rw [List.foldl_cons, List.foldl_cons]
    exact ih _ _ (processFile_rel today f stF stT hrel)

/-- C4 (amended): for the same directory and day the two extraction variants
produce the same `schedules_today` and `deadlines_today` buckets **up to the
`is_task_file` attribute** (which the full variant computes as a `_task`
substring test and the task-only variant as the `__`-delimited filetag test
`has_task_filetag`, and which therefore differs on names like `x_task.org`),
and the task-only variant's TODO buckets are exactly the full variant's
restricted to files with a `task` filetag, again up to that attribute — the
variants differ in no other way. -/
theorem C4_variants_relationship (today : Date) (files : List OrgFile) :
    (parse_org_agenda_items_task_only today files).schedulesToday.map
        eraseTaskFlag =
      (parse_org_agenda_items today files).schedulesToday.map eraseTaskFlag ∧
    (parse_org_agenda_items_task_only today files).deadlinesToday.map
        eraseTaskFlag =
      (parse_org_agenda_items today files).deadlinesToday.map eraseTaskFlag ∧
    (parse_org_agenda_items_task_only today files).todosACTIVE.map eraseTaskFlag =
      ((parse_org_agenda_items today files).todosACTIVE.filter
        fun i => has_task_filetag i.fileName).map eraseTaskFlag ∧
    (parse_org_agenda_items_task_only today files).todosNEXT.map eraseTaskFlag =
      ((parse_org_agenda_items today files).todosNEXT.filter
        fun i => has_task_filetag i.fileName).map eraseTaskFlag ∧
    (parse_org_agenda_items_task_only today files).todosTODO.map eraseTaskFlag =
      ((parse_org_agenda_items today files).todosTODO.filter
        fun i => has_task_filetag i.fileName).map eraseTaskFlag ∧
    (parse_org_agenda_items_task_only today files).todosWAIT.map eraseTaskFlag =
      ((parse_org_agenda_items today files).todosWAIT.filter
        fun i => has_task_filetag i.fileName).map eraseTaskFlag := by
  rw [parse_org_agenda_items, parse_org_agenda_items_task_only]
  exact parse_fold_rel today files initAgenda initAgenda
    ⟨rfl, rfl, rfl, rfl, rfl, rfl⟩

/-- C7 counterexample: with the degenerate empty label (a heading line whose
text trims to the empty string), replace-then-read returns the body of a
*different* heading with the same empty label, not the empty string. -/
theorem C7_counterexample :
    find_heading_in_content ("*  \n*  \nbody").toList [] 1 ≠ none ∧
    get_heading_content (update_heading_in_content
      ("*  \n*  \nbody").toList [] [] [] 1) [] 1 = ("body").toList := by
  constructor
  · decide
  · decide

end OrgWeb
